import Mathlib

/-!
Verification of the data-handling core of the solar dashboard
(`app/utils.py` and the non-UI logic of `app/main.py`).

Modelling conventions (shallow embedding):
* A pandas `DataFrame` is a list of column names plus a list of rows, each
  row a list of cells aligned with the columns.
* A cell is a rational number (`Cell.num`), a string (`Cell.str`) or a
  missing value / NaN (`Cell.missing`).  Floating point is modelled by `ℚ`;
  float formatting is outside the model.
* The filesystem is a directory listing: `none` when the directory does not
  exist, otherwise the list of its entries.  Each entry carries the
  filename and the result of `pd.read_csv` on it (`none` = any parse
  failure, modelling the `except Exception` path).
* `numpy`'s `Generator` is modelled by streams of draws: integer draws are
  arbitrary naturals mapped into `[low, high)` by `low + d % (high - low)`
  (so a uniform draw stays uniform), normal draws are the sampled values
  themselves, as rationals.
-/

namespace Solar

/-- A single table cell: numeric, string, or missing (NaN). -/
inductive Cell where
  | num (q : ℚ)
  | str (s : String)
  | missing
deriving DecidableEq, Repr

/-- A pandas DataFrame: ordered column names and rows aligned with them. -/
structure DataFrame where
  cols : List String
  rows : List (List Cell)
deriving DecidableEq, Repr

/-- The empty DataFrame `pd.DataFrame()`. -/
def DataFrame.empty : DataFrame := ⟨[], []⟩

/-- Well-formedness: every row has exactly one cell per column. -/
def DataFrame.wfB (df : DataFrame) : Bool :=
  df.rows.all (fun r => r.length == df.cols.length)

/-- Model of pandas `df.empty` (an axis of length 0). -/
def DataFrame.isEmpty (df : DataFrame) : Bool :=
  df.rows.isEmpty || df.cols.isEmpty

/-- ASCII whitespace stripped by Python's `str.strip()` (ASCII fragment). -/
def pyWS (c : Char) : Bool :=
  (c == ' ') || (c == '\t') || (c == '\n') || (c == '\r') || (c == '\x0b') || (c == '\x0c')

/-- Model of Python `str.strip()` (ASCII whitespace fragment). -/
def pyStrip (s : String) : String :=
  String.mk (((s.toList.dropWhile pyWS).reverse.dropWhile pyWS).reverse)

/-- A character matched by the regex class `[A-Za-z]`. -/
def asciiAlpha (c : Char) : Bool :=
  (('A' ≤ c) && (c ≤ 'Z')) || (('a' ≤ c) && (c ≤ 'z'))

/-- The run of `[A-Za-z]` characters at the head of a character list:
what `re.match(r"([A-Za-z]+)", name)` captures (empty when no match). -/
def alphaRun (cs : List Char) : List Char :=
  cs.takeWhile asciiAlpha

/-- Model of Python `str.capitalize()` on ASCII letters: first character
uppercased, the rest lowercased. -/
def pyCapitalize (cs : List Char) : List Char :=
  match cs with
  | [] => []
  | c :: rest => c.toUpper :: rest.map Char.toLower

/-- Embedding of `utils.extract_country_from_filename`: capitalize the
leading alphabetic run of the basename, or return the basename unchanged
when there is no such run. -/
def extract_country_from_filename (name : String) : String :=
  let run := alphaRun name.toList
  if run = [] then name else String.mk (pyCapitalize run)

/-- Value of the first column named `c` in row `r` (columns and row walked
in lockstep); `Cell.missing` when the column is absent.  In pandas a lookup
of an absent column raises instead; the theorems only use `cellAt` on
columns that are present. -/
def cellAt : List String → List Cell → String → Cell
  | [], _, _ => Cell.missing
  | _ :: _, [], _ => Cell.missing
  | n :: ns, x :: xs, c => if n = c then x else cellAt ns xs c

/-- One row of `df[c] = v` when column `c` already exists: every position
whose column name is `c` is overwritten, the rest is kept (padding with
`missing` if the row was short). -/
def setRowAux : List String → List Cell → String → Cell → List Cell
  | [], _, _, _ => []
  | n :: ns, xs, c, v =>
    (if n = c then v else xs.headD Cell.missing) :: setRowAux ns xs.tail c v

/-- Embedding of the pandas column assignment `df[c] = v` with a scalar:
overwrite the column if present, else append it on the right. -/
def setCol (df : DataFrame) (c : String) (v : Cell) : DataFrame :=
  if c ∈ df.cols then
    ⟨df.cols, df.rows.map (fun r => setRowAux df.cols r c v)⟩
  else
    ⟨df.cols ++ [c], df.rows.map (fun r => r ++ [v])⟩

/-- Embedding of `utils.load_csv_file`.  The `parsed` argument is the
outcome of `pd.read_csv path` (`none` = the `except Exception` path).  On
success the column headers are stripped, then `__source_file` and
`country` are assigned. -/
def load_csv_file (parsed : Option DataFrame) (fname : String) : DataFrame :=
  match parsed with
  | none => DataFrame.empty
  | some df =>
    let df1 : DataFrame := ⟨df.cols.map pyStrip, df.rows⟩
    let df2 := setCol df1 ("__source_file") (Cell.str fname)
    setCol df2 ("country") (Cell.str (extract_country_from_filename fname))

/-- A directory entry: a basename and the result of `pd.read_csv` on the
file (`none` models any parse failure). -/
structure FileEntry where
  name : String
  parsed : Option DataFrame
deriving DecidableEq, Repr

/-- A directory: `none` when it does not exist, else its entries in
discovery (`iterdir`) order. -/
abbrev Dir : Type := Option (List FileEntry)

/-- Index of the last `'.'` in a character list (Python `str.rfind('.')`),
`none` when there is none. -/
def rfindDot : List Char → Option Nat
  | [] => none
  | c :: cs =>
    match rfindDot cs with
    | some i => some (i + 1)
    | none => if c = '.' then some 0 else none

/-- Model of `pathlib.PurePath.suffix` on a basename: `name[i:]` for the
last dot position `i` when `0 < i < len(name) - 1`, else the empty
string. -/
def pathSuffix (name : String) : String :=
  let cs := name.toList
  match rfindDot cs with
  | none => ""
  | some i => if 0 < i ∧ i < cs.length - 1 then String.mk (cs.drop i) else ""

/-- Model of Python `str.lower()` (ASCII fragment). -/
def pyLower (s : String) : String :=
  String.mk (s.toList.map Char.toLower)

/-- Embedding of `utils.list_data_files`: empty when the directory does
not exist, else the entries whose `suffix.lower()` is `".csv"`. -/
def list_data_files (d : Dir) : List FileEntry :=
  match d with
  | none => []
  | some es => es.filter (fun e => pyLower (pathSuffix e.name) == ".csv")

/-- `mapping.setdefault(k, []).append(v)` on an insertion-ordered
association list. -/
def upsert (m : List (String × List FileEntry)) (k : String) (v : FileEntry) :
    List (String × List FileEntry) :=
  match m with
  | [] => [(k, [v])]
  | (k0, vs) :: rest =>
    if k0 = k then (k0, vs ++ [v]) :: rest else (k0, vs) :: upsert rest k v

/-- Embedding of `utils.get_files_by_country`: group the catalogued files
by the country extracted from their filename, preserving discovery order
within a group and first-seen order of groups. -/
def get_files_by_country (d : Dir) : List (String × List FileEntry) :=
  (list_data_files d).foldl
    (fun m f => upsert m (extract_country_from_filename f.name) f) []

/-- First-match lookup in an association list (`dict.get`). -/
def lookupL : List (String × List FileEntry) → String → Option (List FileEntry)
  | [], _ => none
  | (k0, vs) :: rest, c => if k0 = c then some vs else lookupL rest c

/-- Ordered union of the column lists of several frames, as computed by
`pd.concat` with `sort=False`: order of first appearance. -/
def colsUnion (dfs : List DataFrame) : List String :=
  dfs.foldl (fun acc df => df.cols.foldl (fun a c => if c ∈ a then a else a ++ [c]) acc) []

/-- Embedding of `pd.concat(dfs, ignore_index=True)`: rows in order,
reindexed to the ordered column union, absent columns filled with
`missing` (NaN). -/
def concatFrames (dfs : List DataFrame) : DataFrame :=
  let cols := colsUnion dfs
  ⟨cols, dfs.flatMap (fun df => df.rows.map (fun r => cols.map (fun c => cellAt df.cols r c)))⟩

/-- Embedding of `utils.load_data_for_countries`: load every catalogued
file of every requested country in order, drop empty results, concatenate
the rest (empty frame when nothing was loaded). -/
def load_data_for_countries (countries : List String) (d : Dir) : DataFrame :=
  let fbc := get_files_by_country d
  let dfs :=
    ((countries.flatMap (fun c => (lookupL fbc c).getD []))
      |>.map (fun e => load_csv_file e.parsed e.name))
      |>.filter (fun df => !df.isEmpty)
  if dfs = [] then DataFrame.empty else concatFrames dfs

/-- Embedding of `utils.infer_numeric_columns`: the columns all of whose
present values are numeric (a numeric dtype), in column order; empty for
an empty frame. -/
def infer_numeric_columns (df : DataFrame) : List String :=
  if df.isEmpty then []
  else df.cols.filter (fun c => df.rows.all (fun r =>
    match cellAt df.cols r c with
    | Cell.num _ => true
    | Cell.missing => true
    | Cell.str _ => false))

/-- Streams of random draws made by `np.random.default_rng()`: one integer
draw per row for the country choice, the region and the site, and one
normal sample per row for each of the two numeric fields.  The streams are
the entropy of the unseeded generator. -/
structure RNG where
  countryDraw : Nat → Nat
  regionDraw : Nat → Nat
  siteDraw : Nat → Nat
  ghiDraw : Nat → ℚ
  tempDraw : Nat → ℚ

/-- Model of `rng.integers(low, high)`: uniform over `[low, high)` (the
upper bound is exclusive), realized by mapping an arbitrary draw `d` to
`low + d % (high - low)`. -/
def np_integers (low high d : Nat) : Nat := low + d % (high - low)

/-- Embedding of the synthetic-data block of `app/main.py` (lines 63-88):
each row draws a country uniformly from the list (falling back to
`["Benin", "Togo"]` when it is empty), a region `Region-r` with
`r = rng.integers(1, regionsPer+1)`, a site `Site-s` with
`s = rng.integers(1, 1000)`, a GHI value `abs(normal(300, 100))` and a
temperature `normal(28, 5)`. -/
def generate_random_df (rows : Nat) (genCountries : List String)
    (regionsPer : Nat) (rng : RNG) : DataFrame :=
  let cs := if genCountries = [] then ["Benin", "Togo"] else genCountries
  ⟨["country", "region", "site", "GHI", "temperature"],
   (List.range rows).map (fun i =>
     [Cell.str (cs.getD (rng.countryDraw i % cs.length) ""),
      Cell.str ("Region-" ++ toString (np_integers 1 (regionsPer + 1) (rng.regionDraw i))),
      Cell.str ("Site-" ++ toString (np_integers 1 1000 (rng.siteDraw i))),
      Cell.num (abs (rng.ghiDraw i)),
      Cell.num (rng.tempDraw i)])⟩

/-- A constant entropy stream (one possible state of the OS-seeded
generator). -/
def rngA : RNG := ⟨fun _ => 0, fun _ => 0, fun _ => 0, fun _ => 0, fun _ => 0⟩

/-- Another entropy stream, differing from `rngA` only in the site
draws. -/
def rngB : RNG := ⟨fun _ => 0, fun _ => 0, fun _ => 1, fun _ => 0, fun _ => 0⟩

/-- Stable insertion into a list sorted descending by the key `kf`: the
incoming element passes every element with a strictly greater key and is
placed before the first element whose key is not greater (so it lands
before any element with an equal key that was later in the original
list). -/
def insDesc {α β : Type} [LinearOrder β] (kf : α → β) (x : α) : List α → List α
  | [] => [x]
  | y :: ys => if kf x < kf y then y :: insDesc kf x ys else x :: y :: ys

/-- Deterministic stand-in for pandas `sort_values(ascending=False)`
with its default `kind='quicksort'`: an insertion sort descending by
`kf`.  numpy's introsort does not specify the relative order of equal
keys, so the ranking theorems assert only tie-order-independent
properties of the result (sortedness, length, membership, dominance of
the kept prefix over the rest); concrete evaluations involve at most two
tied elements, where numpy falls back to insertion sort and the real
order is deterministic as well. -/
def sortDescBy {α β : Type} [LinearOrder β] (kf : α → β) (xs : List α) : List α :=
  xs.foldr (insDesc kf) []

/-- Stable sort ascending by the key `kf`. -/
def sortAscBy {α β : Type} [LinearOrder β] (kf : α → β) (xs : List α) : List α :=
  sortDescBy (fun a => OrderDual.toDual (kf a)) xs

/-- First occurrences of a list's elements, in first-seen order. -/
def dedupFirst {α : Type} [DecidableEq α] (xs : List α) : List α :=
  xs.foldl (fun acc x => if x ∈ acc then acc else acc ++ [x]) []

/-- A sort key for cells, ordering numbers before strings before missing
(pandas raises on mixed-type group keys; the keys compared in the app are
all strings, on which this is the string order). -/
def cellKey (c : Cell) : Nat ×ₗ ℚ ×ₗ List Char :=
  match c with
  | Cell.num q => toLex (0, toLex (q, []))
  | Cell.str s => toLex (1, toLex (0, s.toList))
  | Cell.missing => toLex (2, toLex (0, []))

/-- Lexicographic sort key for a (dimension value, country value) pair. -/
def pairKey (p : Cell × Cell) : (Nat ×ₗ ℚ ×ₗ List Char) ×ₗ (Nat ×ₗ ℚ ×ₗ List Char) :=
  toLex (cellKey p.1, cellKey p.2)

/-- One output row of the ranking table: the group key columns restored by
`reset_index`, the mean (`none` = NaN, for a group with no numeric
values) and the count of the variable. -/
structure AggRow where
  dimVal : Cell
  countryVal : Cell
  meanVal : Option ℚ
  nPoints : Nat
deriving DecidableEq, Repr

/-- Sort key of `sort_values(f"mean_{variable}", ascending=False)`: the
mean, with NaN below every number (pandas puts NaN last). -/
def aggRank (a : AggRow) : WithBot ℚ :=
  match a.meanVal with
  | none => (⊥ : WithBot ℚ)
  | some q => (q : WithBot ℚ)

/-- The group key of an aggregation row, as a sort key. -/
def aggKey (a : AggRow) : (Nat ×ₗ ℚ ×ₗ List Char) ×ₗ (Nat ×ₗ ℚ ×ₗ List Char) :=
  pairKey (a.dimVal, a.countryVal)

/-- The group key of a row: its values in the grouping column and in
`country` (the second key is hardcoded in `main.py`). -/
def rowKey (cols : List String) (gcol : String) (r : List Cell) : Cell × Cell :=
  (cellAt cols r gcol, cellAt cols r ("country"))

/-- The row keys of `df` in row order, rows with a null in the key dropped
(pandas `groupby` default `dropna=True`). -/
def keyedRows (df : DataFrame) (gcol : String) : List (Cell × Cell) :=
  df.rows.filterMap (fun r =>
    let k := rowKey df.cols gcol r
    if k.1 = Cell.missing ∨ k.2 = Cell.missing then none else some k)

/-- The distinct group keys in ascending key order (pandas `groupby`
default `sort=True`). -/
def groupKeys (df : DataFrame) (gcol : String) : List (Cell × Cell) :=
  sortAscBy pairKey (dedupFirst (keyedRows df gcol))

/-- The numeric values of column `vcol` among the rows of group `k`
(non-numeric and missing values contribute nothing, as in pandas `mean`
and `count` over a numeric column). -/
def groupVals (df : DataFrame) (gcol vcol : String) (k : Cell × Cell) : List ℚ :=
  df.rows.filterMap (fun r =>
    if rowKey df.cols gcol r = k then
      match cellAt df.cols r vcol with
      | Cell.num q => some q
      | _ => none
    else none)

/-- The aggregation row of one group: arithmetic mean and count of the
variable over the group's rows. -/
def mkAgg (df : DataFrame) (gcol vcol : String) (k : Cell × Cell) : AggRow :=
  let vals := groupVals df gcol vcol k
  ⟨k.1, k.2, if vals = [] then none else some (vals.sum / vals.length), vals.length⟩

/-- Embedding of `df.groupby([group_col, "country"])[variable]
.agg(["mean", "count"]).reset_index()`: one aggregation row per distinct
key, in ascending key order. -/
def aggTable (df : DataFrame) (gcol vcol : String) : List AggRow :=
  (groupKeys df gcol).map (mkAgg df gcol vcol)

/-- Embedding of the ranking block of `app/main.py` (lines 126-134):
aggregate per (group_col, country) pair, sort descending by the mean, keep
the first `n` rows. -/
def top_groups (df : DataFrame) (gcol vcol : String) (n : Nat) : List AggRow :=
  (sortDescBy aggRank (aggTable df gcol vcol)).take n

/-- The character of a decimal digit. -/
def digitC (n : Nat) : Char := Char.ofNat (48 + n)

/-- Decimal digits of a natural number, most significant first, with
explicit fuel (structural recursion, so that proofs can evaluate it). -/
def natCharsF : Nat → Nat → List Char
  | 0, _ => []
  | f + 1, n => if n < 10 then [digitC n] else natCharsF f (n / 10) ++ [digitC (n % 10)]

/-- Decimal digits of a natural number, most significant first. -/
def natChars (n : Nat) : List Char := natCharsF (n + 1) n

/-- Decimal rendering of an integer. -/
def intChars (i : Int) : List Char :=
  if i < 0 then '-' :: natChars (-i).toNat else natChars i.toNat

/-- Rendering of one cell by `to_csv`: integers in decimal, strings
verbatim, NaN as the empty field.  (Float formatting is outside the
model: non-integral rationals are rendered by `toString` and the
round-trip theorem is restricted to integral numerics.) -/
def renderCell : Cell → List Char
  | Cell.num q => if q.den = 1 then intChars q.num else (toString q).toList
  | Cell.str s => s.toList
  | Cell.missing => []

/-- Fields joined by a separator character. -/
def joinChar (sep : Char) : List (List Char) → List Char
  | [] => []
  | [f] => f
  | f :: fs => f ++ sep :: joinChar sep fs

/-- Splitting on a separator character (inverse of `joinChar` for
separator-free fields). -/
def splitOnChar (sep : Char) : List Char → List (List Char)
  | [] => [[]]
  | c :: cs =>
    match splitOnChar sep cs with
    | [] => [[c]]
    | t :: ts => if c = sep then [] :: t :: ts else (c :: t) :: ts

/-- Embedding of `df.to_csv(index=False)`: the header line, then one line
per row, newline-terminated. -/
def to_csv (df : DataFrame) : List Char :=
  joinChar '\n'
    ((joinChar ',' (df.cols.map String.toList)
        :: df.rows.map (fun r => joinChar ',' (r.map renderCell)))
      ++ [[]])

/-- A digit character. -/
def isDigitC (c : Char) : Bool := ('0' ≤ c) && (c ≤ '9')

/-- A field that parses as an integer: an optional minus sign followed by
at least one digit. -/
def intField (cs : List Char) : Bool :=
  if cs.headD ' ' = '-' then (!cs.tail.isEmpty) && cs.tail.all isDigitC
  else (!cs.isEmpty) && cs.all isDigitC

/-- Value of a digit string. -/
def parseNat (cs : List Char) : Nat :=
  cs.foldl (fun a c => a * 10 + (c.toNat - 48)) 0

/-- Value of an integer field. -/
def parseIntF (cs : List Char) : Int :=
  if cs.headD ' ' = '-' then -(parseNat cs.tail : Int) else (parseNat cs : Int)

/-- Embedding of `pd.read_csv` on comma-separated text (the fragment this
app round-trips through): blank lines are skipped, the first remaining
line is the header, short rows are padded with NaN, rows longer than the
header are a parse error, and each column is read as integers when every
non-empty field of it is an integer field, else as strings; empty fields
are NaN either way. -/
def read_csv_chars (text : List Char) : Option DataFrame :=
  let lines := (splitOnChar '\n' text).filter (fun l => !l.isEmpty)
  match lines with
  | [] => none
  | header :: dataLines =>
    let colFields := splitOnChar ',' header
    let ncols := colFields.length
    let rowsF := dataLines.map (fun l => splitOnChar ',' l)
    if rowsF.all (fun r => r.length ≤ ncols) then
      let intCol : Nat → Bool := fun j =>
        rowsF.all (fun r =>
          let f := r.getD j []
          f.isEmpty || intField f)
      some ⟨colFields.map String.mk,
            rowsF.map (fun r => (List.range ncols).map (fun j =>
              let f := r.getD j []
              if f.isEmpty then Cell.missing
              else if intCol j then Cell.num ((parseIntF f : Int) : ℚ)
              else Cell.str (String.mk f)))⟩
    else none

/-- A cell the CSV model serializes faithfully: an integral number, a
nonempty delimiter-free string, or NaN. -/
def cellOKB : Cell → Bool
  | Cell.num q => q.den == 1
  | Cell.str s => (!s.toList.isEmpty) && s.toList.all (fun c => (c != ',') && (c != '\n'))
  | Cell.missing => true

/-- The cells of column position `j`. -/
def colCells (df : DataFrame) (j : Nat) : List Cell :=
  df.rows.map (fun r => r.getD j Cell.missing)

/-- A column whose reload reproduces it: either it has no string cell (it
reloads through the integer branch), or it has no numeric cell and at
least one string that does not look like an integer (so the reload keeps
the whole column as strings). -/
def colHomog (cells : List Cell) : Bool :=
  (cells.all (fun c => match c with | Cell.str _ => false | _ => true)) ||
  ((cells.all (fun c => match c with | Cell.num _ => false | _ => true)) &&
   (cells.any (fun c => match c with | Cell.str s => !intField s.toList | _ => false)))

/-- Canonical frames: the fragment of Assembled Datasets on which the
export/reload round trip is claimed.  Headers are nonempty, distinct and
delimiter-free (pandas mangles duplicate headers on reload), rows are
aligned and never render as an entirely blank line (blank lines are
skipped on reload), every cell is representable, and every column is
homogeneous. -/
def CanonicalB (df : DataFrame) : Bool :=
  (!df.cols.isEmpty) &&
  df.wfB &&
  (df.cols.all (fun c =>
    (!c.toList.isEmpty) && c.toList.all (fun ch => (ch != ',') && (ch != '\n')))) &&
  (decide df.cols.Nodup) &&
  (df.rows.all (fun r => r.all cellOKB && !(joinChar ',' (r.map renderCell)).isEmpty)) &&
  ((List.range df.cols.length).all (fun j => colHomog (colCells df j)))

/-- All catalogued files of a directory parse to well-formed frames (the
failure case `parsed = none` is unconstrained). -/
def dirWfB (d : Dir) : Bool :=
  (list_data_files d).all (fun e => (e.parsed.getD DataFrame.empty).wfB)

/-- A concrete table whose two groups are first encountered in the order
`("B", "X")`, `("A", "X")` and have equal means. -/
def c2df : DataFrame :=
  ⟨["region", "country", "v"],
   [[Cell.str ("B"), Cell.str ("X"), Cell.num 5],
    [Cell.str ("A"), Cell.str ("X"), Cell.num 5]]⟩

/-- The table of the spec example: variable values 10, 20, 30 for group X
and 100 for group Y. -/
def specExampleDf : DataFrame :=
  ⟨["region", "country", "v"],
   [[Cell.str ("X"), Cell.str ("X"), Cell.num 10],
    [Cell.str ("X"), Cell.str ("X"), Cell.num 20],
    [Cell.str ("X"), Cell.str ("X"), Cell.num 30],
    [Cell.str ("Y"), Cell.str ("Y"), Cell.num 100]]⟩

/-- A concrete directory with one well-formed CSV file. -/
def w10dir : Dir := some [⟨"benin.csv", some ⟨["GHI"], [[Cell.num 5]]⟩⟩]

/-- A concrete canonical assembled frame (string column with a
non-numeric value, integral numeric column). -/
def w9df : DataFrame := ⟨["country", "GHI"], [[Cell.str ("Benin"), Cell.num 5]]⟩

/-- A directory with two files sharing the data column `v`: one parses it
as a string column, the other as a numeric column. -/
def c9dir : Dir :=
  some [⟨"benin.csv", some ⟨["v"], [[Cell.str ("a")]]⟩⟩,
        ⟨"togo.csv", some ⟨["v"], [[Cell.num 1]]⟩⟩]

/-- The dataset assembled from both files of `c9dir`: its column `v`
mixes a string cell with a numeric cell. -/
def c9asm : DataFrame := load_data_for_countries ["Benin", "Togo"] c9dir

/-! ## Helper lemmas -/

/-- The leading alphabetic run is the longest all-alphabetic prefix. -/
theorem alphaRun_longest (cs : List Char) :
    alphaRun cs <+: cs ∧ (∀ c ∈ alphaRun cs, asciiAlpha c = true) ∧
    ∀ t : List Char, t <+: cs → (∀ c ∈ t, asciiAlpha c = true) →
      t.length ≤ (alphaRun cs).length := by
  induction cs with
  | nil =>
    refine ⟨List.prefix_refl _, by simp [alphaRun], ?_⟩
    intro t ht _
    simpa [alphaRun] using List.IsPrefix.length_le ht
  | cons c cs ih =>
    by_cases hc : asciiAlpha c = true
    · refine ⟨?_, ?_, ?_⟩
      · simpa [alphaRun, List.takeWhile_cons, hc] using
          (List.cons_prefix_cons.mpr ⟨rfl, ih.1⟩ : c :: alphaRun cs <+: c :: cs)
      · intro x hx
        simp only [alphaRun, List.takeWhile_cons, hc, if_true, List.mem_cons] at hx
        rcases hx with rfl | hx
        · exact hc
        · exact ih.2.1 x hx
      · intro t ht hall
        cases t with
        | nil => simp
        | cons t0 t1 =>
          rw [List.cons_prefix_cons] at ht
          have h1 : t1.length ≤ (alphaRun cs).length :=
            ih.2.2 t1 ht.2 (fun x hx => hall x (List.mem_cons_of_mem t0 hx))
          simp only [alphaRun] at h1
          simp only [alphaRun, List.takeWhile_cons, hc, if_true, List.length_cons]
          omega
    · refine ⟨?_, ?_, ?_⟩
      · simp [alphaRun, List.takeWhile_cons, hc]
      · intro x hx
        simp [alphaRun, List.takeWhile_cons, hc] at hx
      · intro t ht hall
        cases t with
        | nil => simp
        | cons t0 t1 =>
          rw [List.cons_prefix_cons] at ht
          exact absurd (ht.1 ▸ hall t0 (List.mem_cons_self t0 t1)) hc

/-! ## Claim theorems -/

/-- C3: `extract_country_from_filename` capitalizes the longest purely
alphabetic (`[A-Za-z]`) prefix of the filename, returns the filename
unchanged when no alphabetic prefix exists, and is a total function (never
raises); in particular it maps "benin-malanville.csv" to "Benin" and
"123data.csv" to itself. -/
theorem c3_extract_group_label :
    extract_country_from_filename ("benin-malanville.csv") = "Benin" ∧
    extract_country_from_filename ("123data.csv") = "123data.csv" ∧
    (∀ name : String,
      (alphaRun name.toList = [] → extract_country_from_filename name = name) ∧
      (alphaRun name.toList ≠ [] →
        extract_country_from_filename name = String.mk (pyCapitalize (alphaRun name.toList))) ∧
      alphaRun name.toList <+: name.toList ∧
      (∀ c ∈ alphaRun name.toList, asciiAlpha c = true) ∧
      (∀ t : List Char, t <+: name.toList → (∀ c ∈ t, asciiAlpha c = true) →
        t.length ≤ (alphaRun name.toList).length)) := by
  refine ⟨by decide, by decide, ?_⟩
  intro name
  have h := alphaRun_longest name.toList
  refine ⟨?_, ?_, h.1, h.2.1, h.2.2⟩
  · intro h0
    simp only [extract_country_from_filename]
    rw [if_pos h0]
  · intro h0
    simp only [extract_country_from_filename]
    rw [if_neg h0]

/-- Witness for C3 at a concrete filename and a concrete competing
prefix. -/
theorem c3_extract_group_label_witness :
    extract_country_from_filename ("togo-2.csv") = String.mk (pyCapitalize (alphaRun ("togo-2.csv").toList)) ∧
    ['t'].length ≤ (alphaRun ("togo-2.csv").toList).length := by
  constructor
  · exact (c3_extract_group_label.2.2 ("togo-2.csv")).2.1 (by decide)
  · exact (c3_extract_group_label.2.2 ("togo-2.csv")).2.2.2.2 ['t'] (by decide) (by decide)

/-- C4: on any parse failure (the `except Exception` path, `parsed =
none`) `load_csv_file` returns the empty frame; the embedding is a total
function, so no exception propagates to the caller. -/
theorem c4_load_failure_returns_empty :
    ∀ fname : String, load_csv_file none fname = DataFrame.empty :=
  fun _ => rfl

/-- C8: `list_data_files` on a nonexistent directory returns the empty
list and never raises (the embedding is total); on an existing directory
it returns exactly the entries whose extension lowercases to `.csv`. -/
theorem c8_list_files_csv_only :
    list_data_files none = [] ∧
    ∀ (es : List FileEntry) (e : FileEntry),
      e ∈ list_data_files (some es) ↔ e ∈ es ∧ pyLower (pathSuffix e.name) = ".csv" := by
  refine ⟨rfl, ?_⟩
  intro es e
  simp [list_data_files, List.mem_filter]

/-- C6 as stated is false: the site draw is `rng.integers(1, 1000)`, whose
upper bound is exclusive in numpy, so the site number 1000 can never be
drawn (the claim asserts `s` uniform over `[1, 1000]`). -/
theorem c6_counterexample_site_upper_bound :
    ¬ ∃ d : Nat, np_integers 1 1000 d = 1000 := by
  rintro ⟨d, hd⟩
  have h : d % 999 < 999 := Nat.mod_lt _ (by omega)
  simp only [np_integers] at hd
  omega

/-- C6 amended: every generated row has region label `Region-r` with `r`
in `[1, regionsPerGroup]` and site label `Site-s` with `s` in `[1, 999]`
(not `[1, 1000]`: numpy's upper bound is exclusive), and on both ranges
the draw map is a bijection from the uniform base draws, so the labels are
uniform on those ranges. -/
theorem c6_region_site_labels :
    ∀ (rows regionsPer : Nat) (cs : List String) (rng : RNG),
      1 ≤ regionsPer →
      (∀ r ∈ (generate_random_df rows cs regionsPer rng).rows,
        (∃ k, cellAt (generate_random_df rows cs regionsPer rng).cols r ("region")
            = Cell.str ("Region-" ++ toString k) ∧ 1 ≤ k ∧ k ≤ regionsPer) ∧
        (∃ s, cellAt (generate_random_df rows cs regionsPer rng).cols r ("site")
            = Cell.str ("Site-" ++ toString s) ∧ 1 ≤ s ∧ s ≤ 999)) ∧
      (∀ k, 1 ≤ k → k ≤ regionsPer →
        ∃ d, d < regionsPer ∧ np_integers 1 (regionsPer + 1) d = k) ∧
      (∀ d e : Nat, d < regionsPer → e < regionsPer →
        np_integers 1 (regionsPer + 1) d = np_integers 1 (regionsPer + 1) e → d = e) ∧
      (∀ s, 1 ≤ s → s ≤ 999 → ∃ d, d < 999 ∧ np_integers 1 1000 d = s) ∧
      (∀ d e : Nat, d < 999 → e < 999 →
        np_integers 1 1000 d = np_integers 1 1000 e → d = e) := by
  intro rows regionsPer cs rng hrp
  have hmod : ∀ m d : Nat, 1 ≤ m → d % m < m := fun m d hm => Nat.mod_lt _ (by omega)
  refine ⟨?_, ?_, ?_, ?_, ?_⟩
  · intro r hr
    simp only [generate_random_df, List.mem_map, List.mem_range] at hr
    obtain ⟨i, _, rfl⟩ := hr
    constructor
    · refine ⟨np_integers 1 (regionsPer + 1) (rng.regionDraw i), ?_, ?_, ?_⟩
      · simp [generate_random_df, cellAt]
      · simp only [np_integers]; omega
      · have := hmod regionsPer (rng.regionDraw i) hrp
        simp only [np_integers, Nat.add_sub_cancel]
        omega
    · refine ⟨np_integers 1 1000 (rng.siteDraw i), ?_, ?_, ?_⟩
      · simp [generate_random_df, cellAt]
      · simp only [np_integers]; omega
      · have := hmod 999 (rng.siteDraw i) (by omega)
        simp only [np_integers]
        omega
  · intro k h1 h2
    refine ⟨k - 1, by omega, ?_⟩
    simp only [np_integers]
    rw [Nat.add_sub_cancel, Nat.mod_eq_of_lt (by omega)]
    omega
  · intro d e hd he heq
    simp only [np_integers, Nat.add_sub_cancel] at heq
    rw [Nat.mod_eq_of_lt hd, Nat.mod_eq_of_lt he] at heq
    omega
  · intro s h1 h2
    refine ⟨s - 1, by omega, ?_⟩
    simp only [np_integers]
    rw [Nat.mod_eq_of_lt (by omega)]
    omega
  · intro d e hd he heq
    simp only [np_integers] at heq
    rw [Nat.mod_eq_of_lt (by omega), Nat.mod_eq_of_lt (by omega)] at heq
    omega

/-- Witness for C6 at one generated row with one region. -/
theorem c6_region_site_labels_witness :
    ∃ k, cellAt (generate_random_df 1 ["A"] 1 rngA).cols
        ([Cell.str ("A"), Cell.str ("Region-1"), Cell.str ("Site-1"),
          Cell.num 0, Cell.num 0]) ("region")
      = Cell.str ("Region-" ++ toString k) ∧ 1 ≤ k ∧ k ≤ 1 := by
  exact ((c6_region_site_labels 1 1 ["A"] rngA (by decide)).1
    ([Cell.str ("A"), Cell.str ("Region-1"), Cell.str ("Site-1"), Cell.num 0, Cell.num 0])
    (by decide)).1

/-- C7: the code calls `np.random.default_rng()` with no seed and exposes
no seed parameter, so the generated table is a function of the OS-provided
entropy: with identical arguments, two entropy states that differ in one
site draw already produce different tables.  This evaluates the generator
at the failing input of the claim. -/
theorem c7_generator_not_seed_reproducible :
    generate_random_df 1 ["A"] 1 rngA ≠ generate_random_df 1 ["A"] 1 rngB := by
  decide

/-! ## Lemmas for the loader (C1) -/

theorem cellAt_nil_row (ns : List String) (c : String) : cellAt ns [] c = Cell.missing := by
  cases ns <;> rfl

theorem setRowAux_length (cols : List String) (c : String) (v : Cell) :
    ∀ r : List Cell, (setRowAux cols r c v).length = cols.length := by
  induction cols with
  | nil => intro r; rfl
  | cons n ns ih => intro r; simp [setRowAux, ih]

theorem cellAt_setRowAux_self (cols : List String) (c : String) (v : Cell) (h : c ∈ cols) :
    ∀ r : List Cell, cellAt cols (setRowAux cols r c v) c = v := by
  induction cols with
  | nil => cases h
  | cons n ns ih =>
    intro r
    by_cases hn : n = c
    · simp [setRowAux, cellAt, hn]
    · have hmem : c ∈ ns := by
        rcases List.mem_cons.mp h with h1 | h1
        · exact absurd h1.symm hn
        · exact h1
      simp [setRowAux, cellAt, hn, ih hmem]

theorem cellAt_setRowAux_other (cols : List String) (c c' : String) (v : Cell) (h : c' ≠ c) :
    ∀ r : List Cell, cellAt cols (setRowAux cols r c v) c' = cellAt cols r c' := by
  induction cols with
  | nil => intro r; cases r <;> rfl
  | cons n ns ih =>
    intro r
    by_cases hn : n = c'
    · subst hn
      have hnc : ¬ n = c := fun hh => h hh
      cases r with
      | nil => simp [setRowAux, cellAt, hnc]
      | cons x xs => simp [setRowAux, cellAt, hnc]
    · cases r with
      | nil => simp [setRowAux, cellAt, hn, ih, cellAt_nil_row]
      | cons x xs => simp [setRowAux, cellAt, hn, ih]

theorem cellAt_append_self (cols : List String) (c : String) (v : Cell) (hnotin : c ∉ cols) :
    ∀ r : List Cell, r.length = cols.length → cellAt (cols ++ [c]) (r ++ [v]) c = v := by
  induction cols with
  | nil =>
    intro r hlen
    have : r = [] := List.length_eq_zero.mp hlen
    subst this
    simp [cellAt]
  | cons n ns ih =>
    intro r hlen
    cases r with
    | nil => simp at hlen
    | cons x xs =>
      have hne : ¬ n = c := fun hh => hnotin (hh ▸ List.mem_cons_self _ _)
      simp only [List.cons_append, cellAt, hne, if_false]
      exact ih (fun hm => hnotin (List.mem_cons_of_mem _ hm)) xs (by simpa using hlen)

theorem cellAt_append_other (cols : List String) (c c' : String) (v : Cell) (h : c' ≠ c) :
    ∀ r : List Cell, r.length = cols.length →
      cellAt (cols ++ [c]) (r ++ [v]) c' = cellAt cols r c' := by
  induction cols with
  | nil =>
    intro r hlen
    have : r = [] := List.length_eq_zero.mp hlen
    subst this
    have hcc : ¬ c = c' := fun hh => h hh.symm
    simp [cellAt, hcc]
  | cons n ns ih =>
    intro r hlen
    cases r with
    | nil => simp at hlen
    | cons x xs =>
      by_cases hn : n = c'
      · simp [List.cons_append, cellAt, hn]
      · simp only [List.cons_append, cellAt, hn, if_false]
        exact ih xs (by simpa using hlen)

theorem setCol_rows_shape (df : DataFrame) (c : String) (v : Cell) :
    ∀ r ∈ (setCol df c v).rows, ∃ r0 ∈ df.rows,
      (c ∈ df.cols ∧ r = setRowAux df.cols r0 c v ∧ (setCol df c v).cols = df.cols) ∨
      (c ∉ df.cols ∧ r = r0 ++ [v] ∧ (setCol df c v).cols = df.cols ++ [c]) := by
  intro r hr
  by_cases hc : c ∈ df.cols
  · simp only [setCol, if_pos hc, List.mem_map] at hr
    obtain ⟨r0, hr0, rfl⟩ := hr
    exact ⟨r0, hr0, Or.inl ⟨hc, rfl, by simp [setCol, hc]⟩⟩
  · simp only [setCol, if_neg hc, List.mem_map] at hr
    obtain ⟨r0, hr0, rfl⟩ := hr
    exact ⟨r0, hr0, Or.inr ⟨hc, rfl, by simp [setCol, hc]⟩⟩

theorem setCol_cell_self (df : DataFrame) (c : String) (v : Cell) (hwf : df.wfB = true) :
    ∀ r ∈ (setCol df c v).rows, cellAt (setCol df c v).cols r c = v := by
  intro r hr
  obtain ⟨r0, hr0, hcase⟩ := setCol_rows_shape df c v r hr
  rcases hcase with ⟨hc, rfl, hcols⟩ | ⟨hc, rfl, hcols⟩
  · rw [hcols]
    exact cellAt_setRowAux_self df.cols c v hc r0
  · rw [hcols]
    have hlen : r0.length = df.cols.length := by
      have h0 := (List.all_eq_true.mp hwf) r0 hr0
      simpa using h0
    exact cellAt_append_self df.cols c v hc r0 hlen

theorem setCol_cell_other (df : DataFrame) (c c' : String) (v : Cell)
    (hwf : df.wfB = true) (hne : c' ≠ c) :
    ∀ r ∈ (setCol df c v).rows, ∃ r0 ∈ df.rows,
      cellAt (setCol df c v).cols r c' = cellAt df.cols r0 c' := by
  intro r hr
  obtain ⟨r0, hr0, hcase⟩ := setCol_rows_shape df c v r hr
  rcases hcase with ⟨hc, rfl, hcols⟩ | ⟨hc, rfl, hcols⟩
  · refine ⟨r0, hr0, ?_⟩
    rw [hcols]
    exact cellAt_setRowAux_other df.cols c c' v hne r0
  · refine ⟨r0, hr0, ?_⟩
    rw [hcols]
    have hlen : r0.length = df.cols.length := by
      have h0 := (List.all_eq_true.mp hwf) r0 hr0
      simpa using h0
    exact cellAt_append_other df.cols c c' v hne r0 hlen

theorem setCol_wfB (df : DataFrame) (c : String) (v : Cell) (hwf : df.wfB = true) :
    (setCol df c v).wfB = true := by
  by_cases hc : c ∈ df.cols
  · simp only [setCol, if_pos hc, DataFrame.wfB, List.all_eq_true, List.mem_map]
    rintro x ⟨r0, _, rfl⟩
    simp [setRowAux_length]
  · simp only [setCol, if_neg hc, DataFrame.wfB, List.all_eq_true, List.mem_map]
    rintro x ⟨r0, hr0, rfl⟩
    have hlen : r0.length = df.cols.length := by
      have h0 := (List.all_eq_true.mp hwf) r0 hr0
      simpa using h0
    simp [hlen]

theorem setCol_rows_length (df : DataFrame) (c : String) (v : Cell) :
    (setCol df c v).rows.length = df.rows.length := by
  by_cases hc : c ∈ df.cols <;> simp [setCol, hc]

theorem setCol_cols_cases (df : DataFrame) (c : String) (v : Cell) :
    ∀ x ∈ (setCol df c v).cols, x ∈ df.cols ∨ x = c := by
  intro x hx
  by_cases hc : c ∈ df.cols
  · simp only [setCol, if_pos hc] at hx
    exact Or.inl hx
  · simp only [setCol, if_neg hc, List.mem_append, List.mem_singleton] at hx
    exact hx

theorem setCol_cols_super (df : DataFrame) (c : String) (v : Cell) :
    (∀ x ∈ df.cols, x ∈ (setCol df c v).cols) ∧ c ∈ (setCol df c v).cols := by
  by_cases hc : c ∈ df.cols
  · simp only [setCol, if_pos hc]
    exact ⟨fun x hx => hx, hc⟩
  · simp only [setCol, if_neg hc]
    exact ⟨fun x hx => List.mem_append_left _ hx, List.mem_append_right _ (List.mem_singleton_self c)⟩

/-- The strip of a strip: `pyStrip` is idempotent, so stripped headers are
exactly the strings fixed by `pyStrip`. -/
theorem pyStrip_idem (s : String) : pyStrip (pyStrip s) = pyStrip s := by
  have key : ∀ l : List Char,
      ((l.dropWhile pyWS).reverse.dropWhile pyWS).reverse
        = List.rdropWhile pyWS (l.dropWhile pyWS) := fun l => rfl
  have hdw : ∀ l : List Char,
      (List.rdropWhile pyWS (l.dropWhile pyWS)).dropWhile pyWS
        = List.rdropWhile pyWS (l.dropWhile pyWS) := by
    intro l
    have hpre : List.rdropWhile pyWS (l.dropWhile pyWS) <+: l.dropWhile pyWS :=
      List.rdropWhile_prefix pyWS _
    have hself : (l.dropWhile pyWS).dropWhile pyWS = l.dropWhile pyWS :=
      List.dropWhile_idempotent _ _
    obtain ⟨t, ht⟩ := hpre
    cases hy : List.rdropWhile pyWS (l.dropWhile pyWS) with
    | nil => rfl
    | cons a ys =>
      rw [hy] at ht
      rw [← ht] at hself
      rw [List.cons_append, List.dropWhile_cons] at hself
      by_cases hpa : pyWS a = true
      · rw [if_pos hpa] at hself
        have hlen := congrArg List.length hself
        rw [List.length_cons] at hlen
        have hle : ((ys ++ t).dropWhile pyWS).length ≤ (ys ++ t).length :=
          ((List.dropWhile_suffix pyWS).sublist).length_le
        omega
      · rw [List.dropWhile_cons, if_neg hpa]
  unfold pyStrip
  rw [key, key]
  have h1 : (String.mk (List.rdropWhile pyWS (String.toList s |>.dropWhile pyWS))).toList
      = List.rdropWhile pyWS (s.toList.dropWhile pyWS) := rfl
  rw [h1, hdw, List.rdropWhile_idempotent]

/-- C1: on successful parse, `load_csv_file` strips all column headers,
and on every row sets `country` to `extract_country_from_filename` of the
filename and `__source_file` to the filename, overwriting a pre-existing
`country` column; the row count is preserved. -/
theorem c1_load_success_normalizes :
    ∀ (df : DataFrame) (fname : String), df.wfB = true →
      (load_csv_file (some df) fname).rows.length = df.rows.length ∧
      (∀ r ∈ (load_csv_file (some df) fname).rows,
        cellAt (load_csv_file (some df) fname).cols r ("country")
          = Cell.str (extract_country_from_filename fname) ∧
        cellAt (load_csv_file (some df) fname).cols r ("__source_file") = Cell.str fname) ∧
      (∀ c ∈ (load_csv_file (some df) fname).cols,
        pyStrip c = c ∧ (c ∈ df.cols.map pyStrip ∨ c = "__source_file" ∨ c = "country")) ∧
      (∀ c0 ∈ df.cols, pyStrip c0 ∈ (load_csv_file (some df) fname).cols) := by
  intro df fname hwf
  have hwf1 : (DataFrame.mk (df.cols.map pyStrip) df.rows).wfB = true := by
    simp only [DataFrame.wfB, List.all_eq_true] at hwf ⊢
    intro r hr
    simpa using hwf r hr
  set df1 : DataFrame := ⟨df.cols.map pyStrip, df.rows⟩ with hdf1
  set df2 := setCol df1 ("__source_file") (Cell.str fname) with hdf2
  have hwf2 : df2.wfB = true := setCol_wfB df1 _ _ hwf1
  have hout : load_csv_file (some df) fname
      = setCol df2 ("country") (Cell.str (extract_country_from_filename fname)) := rfl
  refine ⟨?_, ?_, ?_, ?_⟩
  · rw [hout, setCol_rows_length, hdf2, setCol_rows_length]
  · intro r hr
    rw [hout] at hr
    constructor
    · rw [hout]
      exact setCol_cell_self df2 _ _ hwf2 r hr
    · rw [hout]
      obtain ⟨r2, hr2, heq⟩ := setCol_cell_other df2 ("country") ("__source_file")
        (Cell.str (extract_country_from_filename fname)) hwf2 (by decide) r hr
      rw [heq]
      exact setCol_cell_self df1 _ _ hwf1 r2 hr2
  · intro c hc
    rw [hout] at hc
    have hc2 := setCol_cols_cases df2 _ _ c hc
    have hstrip : ∀ x ∈ df1.cols, pyStrip x = x ∧ x ∈ df.cols.map pyStrip := by
      intro x hx
      simp only [hdf1, List.mem_map] at hx
      obtain ⟨c0, hc0, rfl⟩ := hx
      exact ⟨pyStrip_idem c0, List.mem_map_of_mem pyStrip hc0⟩
    rcases hc2 with hcc | rfl
    · have hc3 := setCol_cols_cases df1 _ _ c hcc
      rcases hc3 with hcc1 | rfl
      · obtain ⟨h1, h2⟩ := hstrip c hcc1
        exact ⟨h1, Or.inl h2⟩
      · exact ⟨by decide, Or.inr (Or.inl rfl)⟩
    · exact ⟨by decide, Or.inr (Or.inr rfl)⟩
  · intro c0 hc0
    rw [hout]
    have h1 : pyStrip c0 ∈ df1.cols := by
      simp only [hdf1]
      exact List.mem_map_of_mem pyStrip hc0
    have h2 : pyStrip c0 ∈ df2.cols := (setCol_cols_super df1 _ _).1 _ h1
    exact (setCol_cols_super df2 _ _).1 _ h2

/-- Witness for C1 on a concrete parsed frame that already carries its own
`country` column (which gets overwritten). -/
theorem c1_load_success_normalizes_witness :
    (load_csv_file (some ⟨[" GHI ", "country"], [[Cell.num 5, Cell.str ("X")]]⟩)
        ("benin.csv")).rows.length = 1 ∧
    ∀ r ∈ (load_csv_file (some ⟨[" GHI ", "country"], [[Cell.num 5, Cell.str ("X")]]⟩)
        ("benin.csv")).rows,
      cellAt (load_csv_file (some ⟨[" GHI ", "country"], [[Cell.num 5, Cell.str ("X")]]⟩)
          ("benin.csv")).cols r ("country")
        = Cell.str (extract_country_from_filename ("benin.csv")) := by
  have h := c1_load_success_normalizes ⟨[" GHI ", "country"], [[Cell.num 5, Cell.str ("X")]]⟩
    ("benin.csv") (by decide)
  exact ⟨h.1, fun r hr => (h.2.1 r hr).1⟩

/-! ## Lemmas for the assembler (C5, C10) -/

theorem cellAt_map_cols (cols : List String) (f : String → Cell) (c : String) (h : c ∈ cols) :
    cellAt cols (cols.map f) c = f c := by
  induction cols with
  | nil => cases h
  | cons n ns ih =>
    by_cases hn : n = c
    · simp [cellAt, hn]
    · have hmem : c ∈ ns := by
        rcases List.mem_cons.mp h with h1 | h1
        · exact absurd h1.symm hn
        · exact h1
      simp [cellAt, hn, ih hmem]

theorem subset_foldl_ins (cs : List String) : ∀ acc : List String,
    (∀ x ∈ acc, x ∈ cs.foldl (fun a c => if c ∈ a then a else a ++ [c]) acc) ∧
    (∀ c ∈ cs, c ∈ cs.foldl (fun a c => if c ∈ a then a else a ++ [c]) acc) := by
  induction cs with
  | nil =>
    intro acc
    exact ⟨fun x hx => hx, by simp⟩
  | cons y ys ih =>
    intro acc
    constructor
    · intro x hx
      simp only [List.foldl_cons]
      apply (ih _).1
      by_cases hy : y ∈ acc
      · simpa [hy] using hx
      · simp only [hy, if_false, List.mem_append]
        exact Or.inl hx
    · intro c hc
      simp only [List.foldl_cons]
      rcases List.mem_cons.mp hc with rfl | hc2
      · apply (ih _).1
        by_cases hy : c ∈ acc
        · simp [hy]
        · simp [hy]
      · exact (ih _).2 c hc2

theorem mem_colsUnion_aux :
    ∀ (dfs : List DataFrame) (acc : List String),
      (∀ x ∈ acc, x ∈ dfs.foldl
        (fun a df => df.cols.foldl (fun a c => if c ∈ a then a else a ++ [c]) a) acc) ∧
      (∀ df ∈ dfs, ∀ c ∈ df.cols, c ∈ dfs.foldl
        (fun a df => df.cols.foldl (fun a c => if c ∈ a then a else a ++ [c]) a) acc) := by
  intro dfs
  induction dfs with
  | nil =>
    intro acc
    exact ⟨fun x hx => hx, by simp⟩
  | cons d ds ih =>
    intro acc
    constructor
    · intro x hx
      simp only [List.foldl_cons]
      exact (ih _).1 x ((subset_foldl_ins d.cols acc).1 x hx)
    · intro df hdf c hc
      simp only [List.foldl_cons]
      rcases List.mem_cons.mp hdf with rfl | hdf2
      · exact (ih _).1 c ((subset_foldl_ins df.cols acc).2 c hc)
      · exact (ih _).2 df hdf2 c hc

theorem mem_colsUnion (dfs : List DataFrame) (df : DataFrame) (hdf : df ∈ dfs)
    (c : String) (hc : c ∈ df.cols) : c ∈ colsUnion dfs :=
  (mem_colsUnion_aux dfs []).2 df hdf c hc

theorem concatFrames_rows_mem (dfs : List DataFrame) :
    ∀ r ∈ (concatFrames dfs).rows, ∃ df ∈ dfs, ∃ r0 ∈ df.rows,
      r = (colsUnion dfs).map (fun c => cellAt df.cols r0 c) := by
  intro r hr
  simp only [concatFrames, List.mem_flatMap, List.mem_map] at hr
  obtain ⟨df, hdf, r0, hr0, rfl⟩ := hr
  exact ⟨df, hdf, r0, hr0, rfl⟩

theorem concatFrames_rows_length (dfs : List DataFrame) :
    (concatFrames dfs).rows.length = (dfs.map (fun df => df.rows.length)).sum := by
  simp [concatFrames, Function.comp_def, List.length_map]

theorem load_csv_country_mem (df : DataFrame) (fname : String) :
    ("country") ∈ (load_csv_file (some df) fname).cols ∧
    ("__source_file") ∈ (load_csv_file (some df) fname).cols := by
  constructor
  · exact (setCol_cols_super _ _ _).2
  · exact (setCol_cols_super _ _ _).1 _ (setCol_cols_super _ _ _).2

theorem load_csv_cells (df : DataFrame) (fname : String) (hwf : df.wfB = true) :
    ∀ r ∈ (load_csv_file (some df) fname).rows,
      cellAt (load_csv_file (some df) fname).cols r ("country")
        = Cell.str (extract_country_from_filename fname) ∧
      cellAt (load_csv_file (some df) fname).cols r ("__source_file") = Cell.str fname := by
  intro r hr
  have hwf1 : (DataFrame.mk (df.cols.map pyStrip) df.rows).wfB = true := by
    simp only [DataFrame.wfB, List.all_eq_true] at hwf ⊢
    intro r0 hr0
    simpa using hwf r0 hr0
  set df1 : DataFrame := ⟨df.cols.map pyStrip, df.rows⟩ with hdf1
  set df2 := setCol df1 ("__source_file") (Cell.str fname) with hdf2
  have hwf2 : df2.wfB = true := setCol_wfB df1 _ _ hwf1
  have hout : load_csv_file (some df) fname
      = setCol df2 ("country") (Cell.str (extract_country_from_filename fname)) := rfl
  rw [hout] at hr ⊢
  constructor
  · exact setCol_cell_self df2 _ _ hwf2 r hr
  · obtain ⟨r2, hr2, heq⟩ := setCol_cell_other df2 ("country") ("__source_file")
      (Cell.str (extract_country_from_filename fname)) hwf2 (by decide) r hr
    rw [heq]
    exact setCol_cell_self df1 _ _ hwf1 r2 hr2

theorem load_isEmpty_iff (p : Option DataFrame) (fname : String) :
    (load_csv_file p fname).isEmpty = true ↔ (load_csv_file p fname).rows = [] := by
  cases p with
  | none => simp [load_csv_file, DataFrame.empty, DataFrame.isEmpty]
  | some df =>
    have hc := (load_csv_country_mem df fname).1
    have hne : (load_csv_file (some df) fname).cols ≠ [] := by
      intro h
      rw [h] at hc
      cases hc
    simp only [DataFrame.isEmpty, Bool.or_eq_true, List.isEmpty_iff]
    constructor
    · intro h
      rcases h with h | h
      · exact h
      · exact absurd h hne
    · intro h
      exact Or.inl h

theorem upsert_mapinv (m : List (String × List FileEntry)) (k : String) (v : FileEntry)
    (hm : ∀ kv ∈ m, ∀ e ∈ kv.2, extract_country_from_filename e.name = kv.1)
    (hv : extract_country_from_filename v.name = k) :
    ∀ kv ∈ upsert m k v, ∀ e ∈ kv.2, extract_country_from_filename e.name = kv.1 := by
  induction m with
  | nil =>
    intro kv hkv e he
    simp only [upsert, List.mem_singleton] at hkv
    subst hkv
    simp only [List.mem_singleton] at he
    subst he
    exact hv
  | cons p rest ih =>
    intro kv hkv e he
    obtain ⟨k0, vs⟩ := p
    by_cases hk : k0 = k
    · simp only [upsert, if_pos hk, List.mem_cons] at hkv
      rcases hkv with rfl | hkv2
      · simp only [List.mem_append, List.mem_singleton] at he
        rcases he with he1 | rfl
        · exact hm (k0, vs) (List.mem_cons_self _ _) e he1
        · rw [hv, hk]
      · exact hm kv (List.mem_cons_of_mem _ hkv2) e he
    · simp only [upsert, if_neg hk, List.mem_cons] at hkv
      rcases hkv with rfl | hkv2
      · exact hm (k0, vs) (List.mem_cons_self _ _) e he
      · exact ih (fun kv0 h0 => hm kv0 (List.mem_cons_of_mem _ h0)) kv hkv2 e he

theorem upsert_mem (m : List (String × List FileEntry)) (k : String) (v : FileEntry) :
    ∀ kv ∈ upsert m k v, ∀ e ∈ kv.2, (∃ kv0 ∈ m, e ∈ kv0.2) ∨ e = v := by
  induction m with
  | nil =>
    intro kv hkv e he
    simp only [upsert, List.mem_singleton] at hkv
    subst hkv
    simp only [List.mem_singleton] at he
    exact Or.inr he
  | cons p rest ih =>
    intro kv hkv e he
    obtain ⟨k0, vs⟩ := p
    by_cases hk : k0 = k
    · simp only [upsert, if_pos hk, List.mem_cons] at hkv
      rcases hkv with rfl | hkv2
      · simp only [List.mem_append, List.mem_singleton] at he
        rcases he with he1 | rfl
        · exact Or.inl ⟨(k0, vs), List.mem_cons_self _ _, he1⟩
        · exact Or.inr rfl
      · exact Or.inl ⟨kv, List.mem_cons_of_mem _ hkv2, he⟩
    · simp only [upsert, if_neg hk, List.mem_cons] at hkv
      rcases hkv with rfl | hkv2
      · exact Or.inl ⟨(k0, vs), List.mem_cons_self _ _, he⟩
      · rcases ih kv hkv2 e he with ⟨kv0, h0, h1⟩ | h1
        · exact Or.inl ⟨kv0, List.mem_cons_of_mem _ h0, h1⟩
        · exact Or.inr h1

theorem get_files_foldl_inv (d : Dir) :
    ∀ (fs : List FileEntry) (m : List (String × List FileEntry)),
      (∀ kv ∈ m, ∀ e ∈ kv.2,
        extract_country_from_filename e.name = kv.1 ∧ (e ∈ list_data_files d ∨ e ∈ fs)) →
      (∀ f ∈ fs, f ∈ list_data_files d) →
      ∀ kv ∈ fs.foldl (fun m f => upsert m (extract_country_from_filename f.name) f) m,
        ∀ e ∈ kv.2,
          extract_country_from_filename e.name = kv.1 ∧ e ∈ list_data_files d := by
  intro fs
  induction fs with
  | nil =>
    intro m hm _ kv hkv e he
    have h0 := hm kv hkv e he
    refine ⟨h0.1, ?_⟩
    rcases h0.2 with h1 | h1
    · exact h1
    · cases h1
  | cons f fs ih =>
    intro m hm hfs kv hkv e he
    simp only [List.foldl_cons] at hkv
    refine ih _ ?_ (fun g hg => hfs g (List.mem_cons_of_mem _ hg)) kv hkv e he
    intro kv0 hkv0 e0 he0
    constructor
    · exact upsert_mapinv m _ f
        (fun kv1 h1 e1 h2 => (hm kv1 h1 e1 h2).1) rfl kv0 hkv0 e0 he0
    · rcases upsert_mem m _ f kv0 hkv0 e0 he0 with ⟨kv1, h1, h2⟩ | rfl
      · rcases (hm kv1 h1 e0 h2).2 with h3 | h3
        · exact Or.inl h3
        · rcases List.mem_cons.mp h3 with rfl | h4
          · exact Or.inl (hfs e0 (List.mem_cons_self _ _))
          · exact Or.inr h4
      · exact Or.inl (hfs e0 (List.mem_cons_self _ _))

theorem get_files_inv (d : Dir) :
    ∀ kv ∈ get_files_by_country d, ∀ e ∈ kv.2,
      extract_country_from_filename e.name = kv.1 ∧ e ∈ list_data_files d := by
  have h := get_files_foldl_inv d (list_data_files d) []
    (by intro kv hkv; cases hkv) (fun f hf => hf)
  exact h

theorem lookupL_mem (m : List (String × List FileEntry)) (c : String) (vs : List FileEntry)
    (h : lookupL m c = some vs) : (c, vs) ∈ m := by
  induction m with
  | nil => cases h
  | cons p rest ih =>
    obtain ⟨k0, vs0⟩ := p
    by_cases hk : k0 = c
    · simp only [lookupL, if_pos hk, Option.some.injEq] at h
      subst hk
      subst h
      exact List.mem_cons_self _ _
    · simp only [lookupL, if_neg hk] at h
      exact List.mem_cons_of_mem _ (ih h)

theorem sum_map_filter_eq {α : Type} (p : α → Bool) (f : α → Nat) (l : List α)
    (h : ∀ x ∈ l, p x = false → f x = 0) :
    ((l.filter p).map f).sum = (l.map f).sum := by
  induction l with
  | nil => rfl
  | cons x xs ih =>
    have ihh := ih (fun y hy hpy => h y (List.mem_cons_of_mem _ hy) hpy)
    by_cases hp : p x = true
    · simp [List.filter_cons, hp, ihh]
    · have hp0 : p x = false := Bool.eq_false_iff.mpr hp
      have hx0 : f x = 0 := h x (List.mem_cons_self _ _) hp0
      simp [List.filter_cons, hp0, ihh, hx0]

theorem flatMap_eq_nil_of_forall {α β : Type} (l : List α) (f : α → List β)
    (h : ∀ x ∈ l, f x = []) : l.flatMap f = [] := by
  induction l with
  | nil => rfl
  | cons x xs ih =>
    rw [List.flatMap_cons, h x (List.mem_cons_self _ _),
      ih (fun y hy => h y (List.mem_cons_of_mem _ hy))]
    rfl

theorem flatMap_map_eq {α β γ : Type} (l : List α) (f : α → β) (g : β → List γ) :
    (l.map f).flatMap g = l.flatMap (fun x => g (f x)) := by
  induction l with
  | nil => rfl
  | cons x xs ih =>
    rw [List.map_cons, List.flatMap_cons, List.flatMap_cons, ih]

theorem flatMap_filter_eq {α β : Type} (p : α → Bool) (f : α → List β) (l : List α)
    (h : ∀ x ∈ l, p x = false → f x = []) :
    (l.filter p).flatMap f = l.flatMap f := by
  induction l with
  | nil => rfl
  | cons x xs ih =>
    have ihh := ih (fun y hy hpy => h y (List.mem_cons_of_mem _ hy) hpy)
    by_cases hp : p x = true
    · rw [List.filter_cons, if_pos hp, List.flatMap_cons, List.flatMap_cons, ihh]
    · have hp0 : p x = false := Bool.eq_false_iff.mpr hp
      rw [List.filter_cons, if_neg (by simp [hp0]), ihh, List.flatMap_cons,
        h x (List.mem_cons_self _ _) hp0]
      rfl

/-- C10: every row assembled by `load_data_for_countries` carries a
`country` value that is the extracted label of its own `__source_file`
and belongs to the requested country list. -/
theorem c10_rows_tagged :
    ∀ (countries : List String) (d : Dir), dirWfB d = true →
      ∀ r ∈ (load_data_for_countries countries d).rows,
        ∃ f : String,
          cellAt (load_data_for_countries countries d).cols r ("__source_file") = Cell.str f ∧
          cellAt (load_data_for_countries countries d).cols r ("country")
            = Cell.str (extract_country_from_filename f) ∧
          extract_country_from_filename f ∈ countries := by
  intro countries d hwfd r hr
  set fbc := get_files_by_country d with hfbc
  set sel := countries.flatMap (fun c => (lookupL fbc c).getD []) with hsel
  set dfs := (sel.map (fun e => load_csv_file e.parsed e.name)).filter
    (fun df => !df.isEmpty) with hdfs
  have hld : load_data_for_countries countries d
      = if dfs = [] then DataFrame.empty else concatFrames dfs := rfl
  by_cases hnil : dfs = []
  · rw [hld, if_pos hnil] at hr
    cases hr
  · rw [hld, if_neg hnil] at hr ⊢
    obtain ⟨ldf, hldf, r0, hr0, rfl⟩ := concatFrames_rows_mem dfs r hr
    have hldf2 : ldf ∈ sel.map (fun e => load_csv_file e.parsed e.name) :=
      List.mem_of_mem_filter hldf
    obtain ⟨e, he, rfl⟩ := List.mem_map.mp hldf2
    rw [hsel] at he
    obtain ⟨c, hc, he2⟩ := List.mem_flatMap.mp he
    cases hlk : lookupL fbc c with
    | none =>
      rw [hlk] at he2
      cases he2
    | some vs =>
      rw [hlk] at he2
      simp only [Option.getD_some] at he2
      have hkv := lookupL_mem fbc c vs hlk
      have hinv := get_files_inv d (c, vs) hkv e he2
      have hext : extract_country_from_filename e.name = c := hinv.1
      have hein : e ∈ list_data_files d := hinv.2
      cases hp : e.parsed with
      | none =>
        rw [hp] at hr0
        simp [load_csv_file, DataFrame.empty] at hr0
      | some pdf =>
        have hpwf : pdf.wfB = true := by
          have h0 := (List.all_eq_true.mp hwfd) e hein
          rw [hp] at h0
          simpa using h0
        rw [hp] at hr0 hldf
        have hcmem := load_csv_country_mem pdf e.name
        have hc1 : ("country") ∈ colsUnion dfs :=
          mem_colsUnion dfs _ hldf _ hcmem.1
        have hc2 : ("__source_file") ∈ colsUnion dfs :=
          mem_colsUnion dfs _ hldf _ hcmem.2
        have hcells := load_csv_cells pdf e.name hpwf r0 hr0
        refine ⟨e.name, ?_, ?_, ?_⟩
        · have h1 := cellAt_map_cols (colsUnion dfs)
            (fun c0 => cellAt (load_csv_file (some pdf) e.name).cols r0 c0)
            ("__source_file") hc2
          have hcols : (concatFrames dfs).cols = colsUnion dfs := rfl
          rw [hcols, h1]
          exact hcells.2
        · have h1 := cellAt_map_cols (colsUnion dfs)
            (fun c0 => cellAt (load_csv_file (some pdf) e.name).cols r0 c0)
            ("country") hc1
          have hcols : (concatFrames dfs).cols = colsUnion dfs := rfl
          rw [hcols, h1]
          exact hcells.1
        · rw [hext]
          exact hc

/-- Witness for C10 on a one-file directory. -/
theorem c10_rows_tagged_witness :
    ∃ f : String,
      cellAt (load_data_for_countries ["Benin"] w10dir).cols
        ([Cell.num 5, Cell.str ("benin.csv"), Cell.str ("Benin")]) ("__source_file")
        = Cell.str f ∧
      cellAt (load_data_for_countries ["Benin"] w10dir).cols
        ([Cell.num 5, Cell.str ("benin.csv"), Cell.str ("Benin")]) ("country")
        = Cell.str (extract_country_from_filename f) ∧
      extract_country_from_filename f ∈ ["Benin"] :=
  c10_rows_tagged ["Benin"] w10dir (by decide) _ (by decide)

/-- C5: assembling with an empty or unmatched group list yields the empty
frame; in general the assembled rows are exactly the per-file loaded
rows, in input group order then file discovery order, each reindexed to
the assembled column list (absent columns becoming missing), with empty
loads contributing nothing; consequently the row count is the ordered sum
of the per-file loaded row counts. -/
theorem c5_assembler_empty_and_order :
    (∀ d : Dir, load_data_for_countries [] d = DataFrame.empty) ∧
    (∀ (d : Dir) (countries : List String),
      (∀ c ∈ countries, lookupL (get_files_by_country d) c = none) →
      load_data_for_countries countries d = DataFrame.empty) ∧
    (∀ (d : Dir) (countries : List String),
      (load_data_for_countries countries d).rows
        = ((countries.flatMap (fun c => (lookupL (get_files_by_country d) c).getD [])).flatMap
            (fun e => (load_csv_file e.parsed e.name).rows.map
              (fun r => (load_data_for_countries countries d).cols.map
                (fun col => cellAt (load_csv_file e.parsed e.name).cols r col))))) ∧
    (∀ (d : Dir) (countries : List String),
      (load_data_for_countries countries d).rows.length
        = ((countries.flatMap (fun c => (lookupL (get_files_by_country d) c).getD []))
            |>.map (fun e => (load_csv_file e.parsed e.name).rows.length)).sum) := by
  refine ⟨?_, ?_, ?_, ?_⟩
  · intro d
    rfl
  · intro d countries hnone
    have hsel : countries.flatMap
        (fun c => (lookupL (get_files_by_country d) c).getD []) = [] := by
      rw [List.flatMap_eq_nil_iff]
      intro c hc
      rw [hnone c hc]
      rfl
    simp only [load_data_for_countries, hsel]
    rfl
  · intro d countries
    set sel := countries.flatMap (fun c => (lookupL (get_files_by_country d) c).getD [])
      with hsel
    set loaded := sel.map (fun e => load_csv_file e.parsed e.name) with hloaded
    set dfs := loaded.filter (fun df => !df.isEmpty) with hdfs
    have hld : load_data_for_countries countries d
        = if dfs = [] then DataFrame.empty else concatFrames dfs := rfl
    have hrows_nil : ∀ e ∈ sel, dfs = [] →
        (load_csv_file e.parsed e.name).rows = [] := by
      intro e he hnil
      have hmem : load_csv_file e.parsed e.name ∈ loaded := by
        rw [hloaded]
        exact List.mem_map_of_mem _ he
      have hfail : ¬ (!(load_csv_file e.parsed e.name).isEmpty) = true := by
        intro htrue
        have hin : load_csv_file e.parsed e.name ∈ dfs := by
          rw [hdfs]
          exact List.mem_filter.mpr ⟨hmem, htrue⟩
        rw [hnil] at hin
        cases hin
      have hemp : (load_csv_file e.parsed e.name).isEmpty = true := by
        simpa using hfail
      exact (load_isEmpty_iff e.parsed e.name).mp hemp
    rw [hld]
    by_cases hnil : dfs = []
    · rw [if_pos hnil]
      refine Eq.symm (flatMap_eq_nil_of_forall sel _ ?_)
      intro e he
      rw [hrows_nil e he hnil]
      rfl
    · rw [if_neg hnil]
      have hGF : (concatFrames dfs).rows
          = dfs.flatMap (fun df => df.rows.map
              (fun r => (concatFrames dfs).cols.map (fun col => cellAt df.cols r col))) := rfl
      rw [hGF, hdfs]
      rw [flatMap_filter_eq _ _ loaded ?hdrop]
      case hdrop =>
        intro x hx hfalse
        rw [hloaded] at hx
        obtain ⟨e, he, rfl⟩ := List.mem_map.mp hx
        have hemp : (load_csv_file e.parsed e.name).isEmpty = true := by
          simpa using hfalse
        rw [(load_isEmpty_iff e.parsed e.name).mp hemp]
        rfl
      rw [hloaded, flatMap_map_eq]
  · intro d countries
    set sel := countries.flatMap (fun c => (lookupL (get_files_by_country d) c).getD [])
      with hsel
    set loaded := sel.map (fun e => load_csv_file e.parsed e.name) with hloaded
    set dfs := loaded.filter (fun df => !df.isEmpty) with hdfs
    have hld : load_data_for_countries countries d
        = if dfs = [] then DataFrame.empty else concatFrames dfs := rfl
    have hzero : ∀ df ∈ loaded, (!df.isEmpty) = false → df.rows.length = 0 := by
      intro df hdf hfalse
      rw [hloaded] at hdf
      obtain ⟨e, _, rfl⟩ := List.mem_map.mp hdf
      have hemp : (load_csv_file e.parsed e.name).isEmpty = true := by
        simpa using hfalse
      rw [(load_isEmpty_iff e.parsed e.name).mp hemp]
      rfl
    have hsum : (dfs.map (fun df => df.rows.length)).sum
        = (loaded.map (fun df => df.rows.length)).sum := by
      rw [hdfs]
      exact sum_map_filter_eq _ _ loaded hzero
    have hrhs : (loaded.map (fun df => df.rows.length)).sum
        = (sel.map (fun e => (load_csv_file e.parsed e.name).rows.length)).sum := by
      rw [hloaded, List.map_map]
      rfl
    by_cases hnil : dfs = []
    · rw [hld, if_pos hnil]
      have h0 : (dfs.map (fun df => df.rows.length)).sum = 0 := by
        rw [hnil]
        rfl
      rw [← hrhs, ← hsum, h0]
      rfl
    · rw [hld, if_neg hnil, concatFrames_rows_length, hsum, hrhs]

/-- Witness for C5 at a concrete directory and an unmatched group. -/
theorem c5_assembler_empty_and_order_witness :
    load_data_for_countries ["NoSuchGroup"] w10dir = DataFrame.empty :=
  c5_assembler_empty_and_order.2.1 w10dir ["NoSuchGroup"] (by decide)

/-! ## Lemmas for the ranking (C2) -/

theorem insDesc_perm {α β : Type} [LinearOrder β] (kf : α → β) (x : α) :
    ∀ l : List α, (insDesc kf x l).Perm (x :: l) := by
  intro l
  induction l with
  | nil => exact List.Perm.refl _
  | cons y ys ih =>
    simp only [insDesc]
    by_cases h : kf x < kf y
    · rw [if_pos h]
      exact (ih.cons y).trans (List.Perm.swap x y ys)
    · rw [if_neg h]

theorem mem_insDesc {α β : Type} [LinearOrder β] (kf : α → β) (x a : α) (l : List α) :
    a ∈ insDesc kf x l ↔ a = x ∨ a ∈ l := by
  rw [(insDesc_perm kf x l).mem_iff]
  simp

theorem sortDescBy_perm {α β : Type} [LinearOrder β] (kf : α → β) :
    ∀ xs : List α, (sortDescBy kf xs).Perm xs := by
  intro xs
  induction xs with
  | nil => exact List.Perm.refl _
  | cons x xs ih =>
    have h : sortDescBy kf (x :: xs) = insDesc kf x (sortDescBy kf xs) := rfl
    rw [h]
    exact (insDesc_perm kf x _).trans (ih.cons x)

theorem insDesc_pairwise_lex {α β : Type} [LinearOrder β] (kf : α → β) (R : α → α → Prop)
    (x : α) :
    ∀ l : List α,
      List.Pairwise (fun a b => kf b < kf a ∨ (kf a = kf b ∧ R a b)) l →
      (∀ y ∈ l, R x y) →
      List.Pairwise (fun a b => kf b < kf a ∨ (kf a = kf b ∧ R a b)) (insDesc kf x l) := by
  intro l
  induction l with
  | nil =>
    intro _ _
    simp [insDesc]
  | cons y ys ih =>
    intro hl hx
    rw [List.pairwise_cons] at hl
    obtain ⟨hy, hys⟩ := hl
    simp only [insDesc]
    by_cases h : kf x < kf y
    · rw [if_pos h]
      rw [List.pairwise_cons]
      constructor
      · intro z hz
        rcases (mem_insDesc kf x z ys).mp hz with rfl | hz2
        · exact Or.inl h
        · exact hy z hz2
      · exact ih hys (fun z hz => hx z (List.mem_cons_of_mem _ hz))
    · rw [if_neg h]
      rw [List.pairwise_cons]
      constructor
      · intro z hz
        rcases List.mem_cons.mp hz with rfl | hz2
        · rcases lt_or_eq_of_le (not_lt.mp h) with hlt | heq
          · exact Or.inl hlt
          · exact Or.inr ⟨heq.symm, hx z (List.mem_cons_self _ _)⟩
        · have hzy := hy z hz2
          have hzley : kf z ≤ kf y := by
            rcases hzy with h1 | h1
            · exact le_of_lt h1
            · exact le_of_eq h1.1.symm
          rcases lt_or_eq_of_le (le_trans hzley (not_lt.mp h)) with hlt | heq
          · exact Or.inl hlt
          · exact Or.inr ⟨heq.symm, hx z (List.mem_cons_of_mem _ hz2)⟩
      · exact List.Pairwise.cons hy hys

theorem sortDescBy_pairwise_lex {α β : Type} [LinearOrder β] (kf : α → β)
    (R : α → α → Prop) :
    ∀ xs : List α, List.Pairwise R xs →
      List.Pairwise (fun a b => kf b < kf a ∨ (kf a = kf b ∧ R a b)) (sortDescBy kf xs) := by
  intro xs
  induction xs with
  | nil =>
    intro _
    exact List.Pairwise.nil
  | cons x xs ih =>
    intro hp
    rw [List.pairwise_cons] at hp
    have h : sortDescBy kf (x :: xs) = insDesc kf x (sortDescBy kf xs) := rfl
    rw [h]
    exact insDesc_pairwise_lex kf R x _ (ih hp.2)
      (fun y hy => hp.1 y ((sortDescBy_perm kf xs).mem_iff.mp hy))

theorem dedupFirst_aux {α : Type} [DecidableEq α] :
    ∀ (xs : List α) (acc : List α), acc.Nodup →
      (xs.foldl (fun acc x => if x ∈ acc then acc else acc ++ [x]) acc).Nodup ∧
      (∀ a, a ∈ xs.foldl (fun acc x => if x ∈ acc then acc else acc ++ [x]) acc
        ↔ a ∈ acc ∨ a ∈ xs) := by
  intro xs
  induction xs with
  | nil =>
    intro acc h
    exact ⟨h, by simp⟩
  | cons x xs ih =>
    intro acc hacc
    simp only [List.foldl_cons]
    by_cases hx : x ∈ acc
    · rw [if_pos hx]
      obtain ⟨h1, h2⟩ := ih acc hacc
      refine ⟨h1, ?_⟩
      intro a
      rw [h2 a]
      constructor
      · rintro (h | h)
        · exact Or.inl h
        · exact Or.inr (List.mem_cons_of_mem _ h)
      · rintro (h | h)
        · exact Or.inl h
        · rcases List.mem_cons.mp h with rfl | h3
          · exact Or.inl hx
          · exact Or.inr h3
    · rw [if_neg hx]
      have hacc2 : (acc ++ [x]).Nodup := by
        rw [List.nodup_append]
        refine ⟨hacc, List.nodup_singleton x, ?_⟩
        intro a ha hb
        rw [List.mem_singleton] at hb
        subst hb
        exact hx ha
      obtain ⟨h1, h2⟩ := ih (acc ++ [x]) hacc2
      refine ⟨h1, ?_⟩
      intro a
      rw [h2 a]
      simp only [List.mem_append, List.mem_singleton, List.mem_cons]
      tauto

theorem dedupFirst_nodup {α : Type} [DecidableEq α] (xs : List α) :
    (dedupFirst xs).Nodup :=
  (dedupFirst_aux xs [] List.nodup_nil).1

theorem mem_dedupFirst {α : Type} [DecidableEq α] (xs : List α) (a : α) :
    a ∈ dedupFirst xs ↔ a ∈ xs := by
  have h := (dedupFirst_aux xs [] List.nodup_nil).2 a
  rw [dedupFirst, h]
  simp

theorem cellKey_inj (a b : Cell) (h : cellKey a = cellKey b) : a = b := by
  cases a with
  | num q =>
    cases b with
    | num q2 =>
      simp only [cellKey, toLex_inj, Prod.mk.injEq] at h
      rw [h.2.1]
    | str s => simp [cellKey, toLex_inj, Prod.mk.injEq] at h
    | missing => simp [cellKey, toLex_inj, Prod.mk.injEq] at h
  | str s =>
    cases b with
    | num q2 => simp [cellKey, toLex_inj, Prod.mk.injEq] at h
    | str s2 =>
      simp only [cellKey, toLex_inj, Prod.mk.injEq] at h
      cases s with
      | mk l =>
        cases s2 with
        | mk l2 =>
          simp only [String.toList] at h
          rw [h.2.2]
    | missing => simp [cellKey, toLex_inj, Prod.mk.injEq] at h
  | missing =>
    cases b with
    | num q2 => simp [cellKey, toLex_inj, Prod.mk.injEq] at h
    | str s2 => simp [cellKey, toLex_inj, Prod.mk.injEq] at h
    | missing => rfl

theorem pairKey_inj (p q0 : Cell × Cell) (h : pairKey p = pairKey q0) : p = q0 := by
  simp only [pairKey, toLex_inj, Prod.mk.injEq] at h
  obtain ⟨h1, h2⟩ := h
  obtain ⟨p1, p2⟩ := p
  obtain ⟨q1, q2⟩ := q0
  have e1 : p1 = q1 := cellKey_inj _ _ h1
  have e2 : p2 = q2 := cellKey_inj _ _ h2
  rw [e1, e2]

theorem groupKeys_sorted_lt (df : DataFrame) (gcol : String) :
    List.Pairwise (fun a b => pairKey a < pairKey b) (groupKeys df gcol) := by
  have hnodup : List.Pairwise (fun a b : Cell × Cell => a ≠ b)
      (dedupFirst (keyedRows df gcol)) := dedupFirst_nodup _
  have h := sortDescBy_pairwise_lex (fun k : Cell × Cell => OrderDual.toDual (pairKey k))
    (fun a b => a ≠ b) (dedupFirst (keyedRows df gcol)) hnodup
  refine h.imp ?_
  intro a b hab
  rcases hab with h1 | ⟨h1, h2⟩
  · exact OrderDual.toDual_lt_toDual.mp h1
  · exact absurd (pairKey_inj a b (OrderDual.toDual_inj.mp h1)) h2

theorem aggTable_pairwise (df : DataFrame) (gcol vcol : String) :
    List.Pairwise (fun a b => aggKey a < aggKey b) (aggTable df gcol vcol) := by
  have h := groupKeys_sorted_lt df gcol
  refine List.Pairwise.map _ ?_ h
  intro k1 k2 hk
  simpa [aggKey, mkAgg] using hk

/-- C2 as stated is false on ties: with groups first encountered in the
order `("B","X")`, `("A","X")` and equal means, the code returns the
`"A"` group first (pandas `groupby` sorts the keys ascending before the
mean sort), not the first-encountered `"B"` group. -/
theorem c2_counterexample_tie_order :
    top_groups c2df ("region") ("v") 2
      = [⟨Cell.str ("A"), Cell.str ("X"), some 5, 1⟩,
         ⟨Cell.str ("B"), Cell.str ("X"), some 5, 1⟩] ∧
    top_groups c2df ("region") ("v") 2
      ≠ [⟨Cell.str ("B"), Cell.str ("X"), some 5, 1⟩,
         ⟨Cell.str ("A"), Cell.str ("X"), some 5, 1⟩] ∧
    keyedRows c2df ("region")
      = [(Cell.str ("B"), Cell.str ("X")), (Cell.str ("A"), Cell.str ("X"))] :=
  ⟨of_decide_eq_true (by with_unfolding_all rfl),
   of_decide_eq_true (by with_unfolding_all rfl),
   of_decide_eq_true (by with_unfolding_all rfl)⟩

/-- C2 amended: `top_groups` groups the rows by the (dimension, country)
pair dropping null keys, computes the arithmetic mean and non-null count
of the variable per pair, sorts descending by mean with NaN means last —
the relative order of pairs with equal means is not specified by the code
(pandas `sort_values` defaults to the unstable quicksort, applied to the
key-sorted `groupby` output) and in particular is not first-encountered
group order — and returns the first `min n (number of pairs)` rows, each
of which has mean at least that of every omitted pair; the spec's
concrete example holds. -/
theorem c2_top_groups_spec :
    (top_groups specExampleDf ("region") ("v") 2
      = [⟨Cell.str ("Y"), Cell.str ("Y"), some 100, 1⟩,
         ⟨Cell.str ("X"), Cell.str ("X"), some 20, 3⟩]) ∧
    ∀ (df : DataFrame) (gcol vcol : String) (n : Nat),
      (top_groups df gcol vcol n).length = min n (aggTable df gcol vcol).length ∧
      List.Pairwise (fun a b => aggRank b ≤ aggRank a) (top_groups df gcol vcol n) ∧
      (∀ a ∈ top_groups df gcol vcol n, ∃ k ∈ dedupFirst (keyedRows df gcol),
        a = mkAgg df gcol vcol k) ∧
      (∀ a ∈ top_groups df gcol vcol n, ∀ b ∈ aggTable df gcol vcol,
        b ∉ top_groups df gcol vcol n → aggRank b ≤ aggRank a) := by
  refine ⟨of_decide_eq_true (by with_unfolding_all rfl), ?_⟩
  intro df gcol vcol n
  set aggT := aggTable df gcol vcol with hagg
  set sorted := sortDescBy aggRank aggT with hsorted
  have htop : top_groups df gcol vcol n = sorted.take n := rfl
  have hperm : sorted.Perm aggT := sortDescBy_perm aggRank aggT
  have hpw : List.Pairwise (fun a b => aggRank b < aggRank a ∨
      (aggRank a = aggRank b ∧ aggKey a < aggKey b)) sorted :=
    sortDescBy_pairwise_lex aggRank (fun a b => aggKey a < aggKey b) aggT
      (aggTable_pairwise df gcol vcol)
  have hpw2 : List.Pairwise (fun a b => aggRank b ≤ aggRank a) sorted := by
    refine hpw.imp ?_
    intro a b hab
    rcases hab with h1 | ⟨h1, _⟩
    · exact le_of_lt h1
    · exact le_of_eq h1.symm
  refine ⟨?_, ?_, ?_, ?_⟩
  · rw [htop, List.length_take, hperm.length_eq]
  · rw [htop]
    exact hpw2.sublist (List.take_sublist n sorted)
  · intro a ha
    rw [htop] at ha
    have hmem : a ∈ aggT := hperm.mem_iff.mp (List.mem_of_mem_take ha)
    rw [hagg] at hmem
    obtain ⟨k, hk, rfl⟩ := List.mem_map.mp hmem
    exact ⟨k, (sortDescBy_perm _ _).mem_iff.mp hk, rfl⟩
  · intro a ha b hb hnb
    rw [htop] at ha hnb
    have hb2 : b ∈ sorted := hperm.mem_iff.mpr hb
    have hsplit : sorted = sorted.take n ++ sorted.drop n :=
      (List.take_append_drop n sorted).symm
    have hbdrop : b ∈ sorted.drop n := by
      rcases List.mem_append.mp (hsplit ▸ hb2) with h | h
      · exact absurd h hnb
      · exact h
    have hcross := (List.pairwise_append.mp (hsplit ▸ hpw2)).2.2
    exact hcross a ha b hbdrop

/-- Witness for C2: on the spec's example table with n = 1, the shown
group Y dominates the omitted group X. -/
theorem c2_top_groups_spec_witness :
    aggRank (⟨Cell.str ("X"), Cell.str ("X"), some 20, 3⟩ : AggRow)
      ≤ aggRank (⟨Cell.str ("Y"), Cell.str ("Y"), some 100, 1⟩ : AggRow) := by
  have h := (c2_top_groups_spec.2 specExampleDf ("region") ("v") 1).2.2.2
  exact h ⟨Cell.str ("Y"), Cell.str ("Y"), some 100, 1⟩
    (of_decide_eq_true (by with_unfolding_all rfl))
    ⟨Cell.str ("X"), Cell.str ("X"), some 20, 3⟩
    (of_decide_eq_true (by with_unfolding_all rfl))
    (of_decide_eq_true (by with_unfolding_all rfl))

/-! ## Lemmas for the CSV round trip (C9) -/

theorem natCharsF_irrel : ∀ (f1 : Nat), ∀ (f2 n : Nat), n < f1 → n < f2 →
    natCharsF f1 n = natCharsF f2 n := by
  intro f1
  induction f1 with
  | zero =>
    intro f2 n h1
    cases h1
  | succ g ih =>
    intro f2 n h1 h2
    cases f2 with
    | zero => cases h2
    | succ h =>
      simp only [natCharsF]
      by_cases hn : n < 10
      · rw [if_pos hn, if_pos hn]
      · rw [if_neg hn, if_neg hn]
        have hdiv : n / 10 < n := Nat.div_lt_self (by omega) (by omega)
        rw [ih h (n / 10) (by omega) (by omega)]

theorem natChars_eq (n : Nat) :
    natChars n = if n < 10 then [digitC n] else natChars (n / 10) ++ [digitC (n % 10)] := by
  show natCharsF (n + 1) n = _
  simp only [natCharsF]
  by_cases hn : n < 10
  · rw [if_pos hn, if_pos hn]
  · rw [if_neg hn, if_neg hn]
    have hdiv : n / 10 < n := Nat.div_lt_self (by omega) (by omega)
    rw [natCharsF_irrel n (n / 10 + 1) (n / 10) (by omega) (by omega)]
    rfl

theorem digitC_isDigit (n : Nat) (h : n < 10) :
    isDigitC (digitC n) = true ∧ (digitC n).toNat = 48 + n ∧ digitC n ≠ ',' ∧
    digitC n ≠ '\n' ∧ digitC n ≠ '-' := by
  interval_cases n <;> exact ⟨by decide, by decide, by decide, by decide, by decide⟩

theorem natChars_spec (n : Nat) :
    natChars n ≠ [] ∧ ∀ c ∈ natChars n, isDigitC c = true := by
  induction n using Nat.strong_induction_on with
  | _ n ih =>
    rw [natChars_eq]
    by_cases hn : n < 10
    · rw [if_pos hn]
      refine ⟨by simp, ?_⟩
      intro c hc
      rw [List.mem_singleton] at hc
      subst hc
      exact (digitC_isDigit n hn).1
    · rw [if_neg hn]
      have hdiv : n / 10 < n := Nat.div_lt_self (by omega) (by omega)
      have ih2 := ih (n / 10) hdiv
      refine ⟨by simp [ih2.1], ?_⟩
      intro c hc
      rcases List.mem_append.mp hc with h1 | h1
      · exact ih2.2 c h1
      · rw [List.mem_singleton] at h1
        subst h1
        exact (digitC_isDigit (n % 10) (Nat.mod_lt _ (by omega))).1

theorem parseNat_append (xs : List Char) (d : Char) :
    parseNat (xs ++ [d]) = parseNat xs * 10 + (d.toNat - 48) := by
  simp [parseNat, List.foldl_append]

theorem parseNat_natChars (n : Nat) : parseNat (natChars n) = n := by
  induction n using Nat.strong_induction_on with
  | _ n ih =>
    rw [natChars_eq]
    by_cases hn : n < 10
    · rw [if_pos hn]
      have hd := (digitC_isDigit n hn).2.1
      simp [parseNat, hd]
    · rw [if_neg hn]
      have hdiv : n / 10 < n := Nat.div_lt_self (by omega) (by omega)
      rw [parseNat_append, ih (n / 10) hdiv,
        (digitC_isDigit (n % 10) (Nat.mod_lt _ (by omega))).2.1]
      omega

theorem isDigitC_ne_minus (c : Char) (h : isDigitC c = true) : c ≠ '-' := by
  intro hc
  subst hc
  simp [isDigitC] at h

theorem natChars_headD_ne_minus (n : Nat) : (natChars n).headD ' ' ≠ '-' := by
  obtain ⟨hne, hdig⟩ := natChars_spec n
  cases hm : natChars n with
  | nil => simp
  | cons c cs =>
    have hc := hdig c (by rw [hm]; exact List.mem_cons_self _ _)
    simpa using isDigitC_ne_minus c hc

theorem parseIntF_intChars (i : Int) : parseIntF (intChars i) = i := by
  by_cases hi : i < 0
  · rw [intChars, if_pos hi]
    have h1 : parseIntF ('-' :: natChars (-i).toNat)
        = -((parseNat (natChars (-i).toNat) : Nat) : Int) := by
      simp [parseIntF]
    rw [h1, parseNat_natChars]
    omega
  · rw [intChars, if_neg hi]
    simp only [parseIntF]
    rw [if_neg (natChars_headD_ne_minus i.toNat), parseNat_natChars]
    omega

theorem intField_intChars (i : Int) : intField (intChars i) = true := by
  by_cases hi : i < 0
  · rw [intChars, if_pos hi]
    obtain ⟨hne, hdig⟩ := natChars_spec (-i).toNat
    have h1 : intField ('-' :: natChars (-i).toNat)
        = ((!(natChars (-i).toNat).isEmpty) && (natChars (-i).toNat).all isDigitC) := by
      simp [intField]
    rw [h1, Bool.and_eq_true, List.all_eq_true]
    refine ⟨?_, hdig⟩
    simp [List.isEmpty_iff, hne]
  · rw [intChars, if_neg hi]
    obtain ⟨hne, hdig⟩ := natChars_spec i.toNat
    simp only [intField]
    rw [if_neg (natChars_headD_ne_minus i.toNat), Bool.and_eq_true, List.all_eq_true]
    refine ⟨?_, hdig⟩
    simp [List.isEmpty_iff, hne]

theorem intChars_ne_nil (i : Int) : intChars i ≠ [] := by
  by_cases hi : i < 0
  · simp [intChars, hi]
  · simp only [intChars, if_neg hi]
    exact (natChars_spec _).1

theorem intChars_safe (i : Int) : ∀ ch ∈ intChars i, ch ≠ ',' ∧ ch ≠ '\n' := by
  intro ch hch
  have hd : isDigitC ch = true ∨ ch = '-' := by
    by_cases hi : i < 0
    · simp only [intChars, if_pos hi, List.mem_cons] at hch
      rcases hch with rfl | h
      · exact Or.inr rfl
      · exact Or.inl ((natChars_spec _).2 ch h)
    · simp only [intChars, if_neg hi] at hch
      exact Or.inl ((natChars_spec _).2 ch hch)
  rcases hd with h | rfl
  · constructor
    · intro hc
      subst hc
      exact absurd h (by decide)
    · intro hc
      subst hc
      exact absurd h (by decide)
  · exact ⟨by decide, by decide⟩

theorem string_mk_toList (s : String) : String.mk s.toList = s := by
  cases s
  rfl

theorem splitOnChar_ne_nil (sep : Char) : ∀ l : List Char, splitOnChar sep l ≠ [] := by
  intro l
  cases l with
  | nil => simp [splitOnChar]
  | cons c cs =>
    simp only [splitOnChar]
    cases splitOnChar sep cs with
    | nil => simp
    | cons t ts =>
      by_cases h : c = sep <;> simp [h]

theorem splitOnChar_no_sep (sep : Char) : ∀ f : List Char, sep ∉ f →
    splitOnChar sep f = [f] := by
  intro f
  induction f with
  | nil => intro _; rfl
  | cons c cs ih =>
    intro h
    have hc : c ≠ sep := fun hh => h (hh ▸ List.mem_cons_self _ _)
    have hcs : sep ∉ cs := fun hh => h (List.mem_cons_of_mem _ hh)
    simp only [splitOnChar, ih hcs]
    rw [if_neg hc]

theorem splitOnChar_cons_eq (sep c : Char) (cs : List Char) (t : List Char)
    (ts : List (List Char)) (h : splitOnChar sep cs = t :: ts) :
    splitOnChar sep (c :: cs) = if c = sep then [] :: t :: ts else (c :: t) :: ts := by
  simp only [splitOnChar, h]

theorem splitOnChar_append (sep : Char) : ∀ (f rest : List Char), sep ∉ f →
    splitOnChar sep (f ++ sep :: rest) = f :: splitOnChar sep rest := by
  intro f
  induction f with
  | nil =>
    intro rest _
    cases h : splitOnChar sep rest with
    | nil => exact absurd h (splitOnChar_ne_nil sep rest)
    | cons t ts =>
      rw [List.nil_append, splitOnChar_cons_eq sep sep rest t ts h, if_pos rfl]
  | cons c cs ih =>
    intro rest h
    have hc : c ≠ sep := fun hh => h (hh ▸ List.mem_cons_self _ _)
    have hcs : sep ∉ cs := fun hh => h (List.mem_cons_of_mem _ hh)
    rw [List.cons_append,
      splitOnChar_cons_eq sep c (cs ++ sep :: rest) cs (splitOnChar sep rest) (ih rest hcs),
      if_neg hc]

theorem splitOnChar_joinChar (sep : Char) : ∀ fields : List (List Char), fields ≠ [] →
    (∀ f ∈ fields, sep ∉ f) →
    splitOnChar sep (joinChar sep fields) = fields := by
  intro fields
  induction fields with
  | nil =>
    intro h _
    exact absurd rfl h
  | cons f fs ih =>
    intro _ hall
    cases fs with
    | nil =>
      have hj : joinChar sep [f] = f := rfl
      rw [hj]
      exact splitOnChar_no_sep sep f (hall f (List.mem_cons_self _ _))
    | cons f2 fs2 =>
      have hjoin : joinChar sep (f :: f2 :: fs2) = f ++ sep :: joinChar sep (f2 :: fs2) := rfl
      rw [hjoin, splitOnChar_append sep f _ (hall f (List.mem_cons_self _ _)),
        ih (by simp) (fun g hg => hall g (List.mem_cons_of_mem _ hg))]

theorem joinChar_mem (sep : Char) : ∀ (fields : List (List Char)) (ch : Char),
    ch ∈ joinChar sep fields → ch = sep ∨ ∃ f ∈ fields, ch ∈ f := by
  intro fields
  induction fields with
  | nil =>
    intro ch h
    cases h
  | cons f fs ih =>
    intro ch h
    cases fs with
    | nil => exact Or.inr ⟨f, List.mem_cons_self _ _, h⟩
    | cons f2 fs2 =>
      have hjoin : joinChar sep (f :: f2 :: fs2) = f ++ sep :: joinChar sep (f2 :: fs2) := rfl
      rw [hjoin] at h
      rcases List.mem_append.mp h with h1 | h1
      · exact Or.inr ⟨f, List.mem_cons_self _ _, h1⟩
      · rcases List.mem_cons.mp h1 with rfl | h2
        · exact Or.inl rfl
        · rcases ih ch h2 with h3 | ⟨g, hg, h4⟩
          · exact Or.inl h3
          · exact Or.inr ⟨g, List.mem_cons_of_mem _ hg, h4⟩

theorem joinChar_ne_nil (sep : Char) (f : List Char) (fs : List (List Char)) (hf : f ≠ []) :
    joinChar sep (f :: fs) ≠ [] := by
  cases fs with
  | nil => exact hf
  | cons f2 fs2 =>
    have hjoin : joinChar sep (f :: f2 :: fs2) = f ++ sep :: joinChar sep (f2 :: fs2) := rfl
    rw [hjoin]
    simp

theorem read_csv_chars_eq (text : List Char) (header : List Char)
    (dataLines : List (List Char))
    (h : (splitOnChar '\n' text).filter (fun l => !l.isEmpty) = header :: dataLines) :
    read_csv_chars text =
      (if (dataLines.map (fun l => splitOnChar ',' l)).all
          (fun r => r.length ≤ (splitOnChar ',' header).length) then
        some ⟨(splitOnChar ',' header).map String.mk,
              (dataLines.map (fun l => splitOnChar ',' l)).map
                (fun r => (List.range (splitOnChar ',' header).length).map (fun j =>
                  if (r.getD j []).isEmpty then Cell.missing
                  else if (dataLines.map (fun l => splitOnChar ',' l)).all
                      (fun r2 => (r2.getD j []).isEmpty || intField (r2.getD j [])) then
                    Cell.num ((parseIntF (r.getD j []) : Int) : ℚ)
                  else Cell.str (String.mk (r.getD j []))))⟩
      else none) := by
  simp only [read_csv_chars, h]

/-- C9 as stated is false even modulo the two injected metadata columns:
assembling two files whose shared data column `v` received different
dtypes from per-file type inference (a string `"a"` in one file, the
number `1` in the other), then exporting and reloading, turns the
numeric cell `1` of column `v` into the string `"1"`.  The mismatch is
in the data column `v` — row 1 of the reload differs there — while both
`__source_file` and `country` reproduce exactly, so the failure is not
excluded by the claim's modulo clause.  The statement evaluates the real
pipeline: assemble from the directory, export, re-parse. -/
theorem c9_counterexample_mixed_column :
    c9asm = ⟨["v", "__source_file", "country"],
      [[Cell.str ("a"), Cell.str ("benin.csv"), Cell.str ("Benin")],
       [Cell.num 1, Cell.str ("togo.csv"), Cell.str ("Togo")]]⟩ ∧
    read_csv_chars (to_csv c9asm)
      = some ⟨["v", "__source_file", "country"],
          [[Cell.str ("a"), Cell.str ("benin.csv"), Cell.str ("Benin")],
           [Cell.str ("1"), Cell.str ("togo.csv"), Cell.str ("Togo")]]⟩ ∧
    cellAt c9asm.cols (c9asm.rows.getD 1 []) ("v") = Cell.num 1 ∧
    Cell.str ("1") ≠ Cell.num 1 :=
  ⟨of_decide_eq_true (by with_unfolding_all rfl),
   of_decide_eq_true (by with_unfolding_all rfl),
   of_decide_eq_true (by with_unfolding_all rfl),
   of_decide_eq_true (by with_unfolding_all rfl)⟩

/-- C9 amended: export followed by reload reproduces the column order and
every cell exactly — the two metadata columns included: their values (a
filename carrying its `.csv` suffix and the label extracted from it)
never parse as numbers, so the claim's modulo clause is subsumed rather
than needed — for canonical assembled frames: aligned rows; nonempty,
distinct, delimiter-free headers; cells that are integral numbers, NaN,
or nonempty delimiter-free strings; no row rendering as a blank line; and
every column either free of string cells or free of numeric cells with at
least one string value that does not parse as a number — the homogeneity
condition that the counterexample's mixed column violates. -/
theorem c9_export_reload_roundtrip :
    ∀ df : DataFrame, CanonicalB df = true → read_csv_chars (to_csv df) = some df := by
  intro df hc
  simp only [CanonicalB, Bool.and_eq_true] at hc
  obtain ⟨⟨⟨⟨⟨h1, h2⟩, h3⟩, h4⟩, h5⟩, h6⟩ := hc
  have hcols_ne : df.cols ≠ [] := by
    intro h
    rw [h] at h1
    simp at h1
  have hwf : ∀ r ∈ df.rows, r.length = df.cols.length := by
    intro r hr
    have h0 := (List.all_eq_true.mp h2) r hr
    simpa using h0
  have hcolsafe : ∀ c ∈ df.cols, c.toList ≠ [] ∧ ∀ ch ∈ c.toList, ch ≠ ',' ∧ ch ≠ '\n' := by
    intro c hcmem
    have h0 := (List.all_eq_true.mp h3) c hcmem
    rw [Bool.and_eq_true] at h0
    constructor
    · intro hnil
      rw [hnil] at h0
      simpa using h0.1
    · intro ch hch
      have hh := (List.all_eq_true.mp h0.2) ch hch
      rw [Bool.and_eq_true] at hh
      exact ⟨by simpa using hh.1, by simpa using hh.2⟩
  have hcellok : ∀ r ∈ df.rows, ∀ x ∈ r, cellOKB x = true := by
    intro r hr x hx
    have h0 := (List.all_eq_true.mp h5) r hr
    rw [Bool.and_eq_true] at h0
    exact (List.all_eq_true.mp h0.1) x hx
  have hlinene : ∀ r ∈ df.rows, joinChar ',' (r.map renderCell) ≠ [] := by
    intro r hr
    have h0 := (List.all_eq_true.mp h5) r hr
    rw [Bool.and_eq_true] at h0
    simpa [List.isEmpty_iff] using h0.2
  have hrender_safe : ∀ r ∈ df.rows, ∀ x ∈ r, ∀ ch ∈ renderCell x,
      ch ≠ ',' ∧ ch ≠ '\n' := by
    intro r hr x hx ch hch
    have hok := hcellok r hr x hx
    cases x with
    | num q =>
      have hden : q.den = 1 := by simpa [cellOKB] using hok
      simp only [renderCell, if_pos hden] at hch
      exact intChars_safe q.num ch hch
    | str s =>
      simp only [renderCell] at hch
      simp only [cellOKB, Bool.and_eq_true] at hok
      have hh := (List.all_eq_true.mp hok.2) ch hch
      rw [Bool.and_eq_true] at hh
      exact ⟨by simpa using hh.1, by simpa using hh.2⟩
    | missing =>
      simp only [renderCell] at hch
      cases hch
  have hto : to_csv df
      = joinChar '\n' ((joinChar ',' (df.cols.map String.toList)
          :: df.rows.map (fun r => joinChar ',' (r.map renderCell))) ++ [[]]) := rfl
  have hsplit : splitOnChar '\n' (to_csv df)
      = (joinChar ',' (df.cols.map String.toList)
          :: df.rows.map (fun r => joinChar ',' (r.map renderCell))) ++ [[]] := by
    rw [hto]
    apply splitOnChar_joinChar
    · simp
    · intro f hf hch
      rcases List.mem_append.mp hf with hf1 | hf1
      · rcases List.mem_cons.mp hf1 with rfl | hf2
        · rcases joinChar_mem ',' _ '\n' hch with h0 | ⟨g, hg, h0⟩
          · exact absurd h0 (by decide)
          · obtain ⟨c0, hc0, rfl⟩ := List.mem_map.mp hg
            exact ((hcolsafe c0 hc0).2 '\n' h0).2 rfl
        · obtain ⟨r, hr, rfl⟩ := List.mem_map.mp hf2
          rcases joinChar_mem ',' _ '\n' hch with h0 | ⟨g, hg, h0⟩
          · exact absurd h0 (by decide)
          · obtain ⟨x, hx, rfl⟩ := List.mem_map.mp hg
            exact (hrender_safe r hr x hx '\n' h0).2 rfl
      · rw [List.mem_singleton] at hf1
        subst hf1
        cases hch
  have hhdr_ne : joinChar ',' (df.cols.map String.toList) ≠ [] := by
    cases hcc : df.cols with
    | nil => exact absurd hcc hcols_ne
    | cons c0 rest =>
      rw [List.map_cons]
      exact joinChar_ne_nil ',' _ _
        ((hcolsafe c0 (by rw [hcc]; exact List.mem_cons_self _ _)).1)
  have hfilter : ((joinChar ',' (df.cols.map String.toList)
        :: df.rows.map (fun r : List Cell => joinChar ',' (r.map renderCell))) ++ [[]]).filter
        (fun l => !l.isEmpty)
      = joinChar ',' (df.cols.map String.toList)
          :: df.rows.map (fun r : List Cell => joinChar ',' (r.map renderCell)) := by
    rw [List.filter_append]
    have h01 : (joinChar ',' (df.cols.map String.toList)
        :: df.rows.map (fun r => joinChar ',' (r.map renderCell))).filter
        (fun l => !l.isEmpty)
        = joinChar ',' (df.cols.map String.toList)
            :: df.rows.map (fun r => joinChar ',' (r.map renderCell)) := by
      rw [List.filter_eq_self]
      intro l hl
      rcases List.mem_cons.mp hl with rfl | hl2
      · simpa [List.isEmpty_iff] using hhdr_ne
      · obtain ⟨r, hr, rfl⟩ := List.mem_map.mp hl2
        simpa [List.isEmpty_iff] using hlinene r hr
    have h02 : ([[]] : List (List Char)).filter (fun l => !l.isEmpty) = [] := rfl
    rw [h01, h02, List.append_nil]
  have hhdrsplit : splitOnChar ',' (joinChar ',' (df.cols.map String.toList))
      = df.cols.map String.toList := by
    apply splitOnChar_joinChar
    · simpa using hcols_ne
    · intro f hf hch
      obtain ⟨c0, hc0, rfl⟩ := List.mem_map.mp hf
      exact ((hcolsafe c0 hc0).2 ',' hch).1 rfl
  have hrowsplit : ∀ r ∈ df.rows,
      splitOnChar ',' (joinChar ',' (r.map renderCell)) = r.map renderCell := by
    intro r hr
    apply splitOnChar_joinChar
    · intro h0
      rw [List.map_eq_nil_iff] at h0
      have hl := hwf r hr
      rw [h0] at hl
      exact hcols_ne (List.length_eq_zero.mp hl.symm)
    · intro f hf hch
      obtain ⟨x, hx, rfl⟩ := List.mem_map.mp hf
      exact (hrender_safe r hr x hx ',' hch).1 rfl
  rw [read_csv_chars_eq (to_csv df) (joinChar ',' (df.cols.map String.toList))
    (df.rows.map (fun r => joinChar ',' (r.map renderCell)))
    (by rw [hsplit]; exact hfilter)]
  rw [hhdrsplit, List.length_map]
  have hrowsF : (df.rows.map (fun r => joinChar ',' (r.map renderCell))).map
      (fun l => splitOnChar ',' l) = df.rows.map (fun r => r.map renderCell) := by
    rw [List.map_map]
    exact List.map_congr_left (fun r hr => hrowsplit r hr)
  rw [hrowsF]
  have hfield : ∀ r ∈ df.rows, ∀ j, j < df.cols.length →
      (r.map renderCell).getD j [] = renderCell (r.getD j Cell.missing) := by
    intro r hr j hj
    have hlen : j < r.length := by rw [hwf r hr]; exact hj
    rw [List.getD_eq_getElem _ _ (by simpa using hlen), List.getElem_map,
      List.getD_eq_getElem _ _ hlen]
  have hall_len : ((df.rows.map (fun r => r.map renderCell)).all
      (fun r => r.length ≤ df.cols.length)) = true := by
    rw [List.all_eq_true]
    intro fr hfr
    obtain ⟨r, hr, rfl⟩ := List.mem_map.mp hfr
    simp [hwf r hr]
  rw [if_pos hall_len]
  have hcolsback : (df.cols.map String.toList).map String.mk = df.cols := by
    rw [List.map_map]
    have h0 : ∀ c ∈ df.cols, (String.mk ∘ String.toList) c = id c :=
      fun c _ => string_mk_toList c
    rw [List.map_congr_left h0, List.map_id]
  have hmemD : ∀ r ∈ df.rows, ∀ j, j < df.cols.length → r.getD j Cell.missing ∈ r := by
    intro r hr j hj
    have hlen : j < r.length := by rw [hwf r hr]; exact hj
    rw [List.getD_eq_getElem _ _ hlen]
    exact List.getElem_mem hlen
  have hcolmem : ∀ r ∈ df.rows, ∀ j, r.getD j Cell.missing ∈ colCells df j := by
    intro r hr j
    simp only [colCells]
    exact List.mem_map_of_mem _ hr
  have hrowelem : ∀ r ∈ df.rows,
      (List.range df.cols.length).map (fun j =>
        if ((r.map renderCell).getD j []).isEmpty then Cell.missing
        else if (df.rows.map (fun r2 => r2.map renderCell)).all
            (fun r2 => (r2.getD j []).isEmpty || intField (r2.getD j [])) then
          Cell.num ((parseIntF ((r.map renderCell).getD j []) : Int) : ℚ)
        else Cell.str (String.mk ((r.map renderCell).getD j []))) = r := by
    intro r hr
    apply List.ext_getElem
    · simp [hwf r hr]
    · intro j hj1 hj2
      have hjc : j < df.cols.length := by simpa using hj1
      rw [List.getElem_map, List.getElem_range]
      have hget : r.getD j Cell.missing = r[j] :=
        List.getD_eq_getElem _ _ (by rw [hwf r hr]; exact hjc)
      rw [hfield r hr j hjc]
      have hdisj := (List.all_eq_true.mp h6) j (List.mem_range.mpr hjc)
      rw [colHomog, Bool.or_eq_true] at hdisj
      cases hcell : r.getD j Cell.missing with
      | missing =>
        simp only [renderCell]
        rw [← hget, hcell]
        rfl
      | num q =>
        have hok : cellOKB (Cell.num q) = true := by
          have hmem := hmemD r hr j hjc
          rw [hcell] at hmem
          exact hcellok r hr _ hmem
        have hden : q.den = 1 := by simpa [cellOKB] using hok
        simp only [renderCell, if_pos hden]
        have hemp : ((intChars q.num).isEmpty) = false := by
          simpa [List.isEmpty_iff] using intChars_ne_nil q.num
        rw [hemp]
        simp only [Bool.false_eq_true, if_false]
        have hnostr : (df.rows.map (fun r2 => r2.map renderCell)).all
            (fun r2 => (r2.getD j []).isEmpty || intField (r2.getD j [])) = true := by
          have hfirst : (colCells df j).all
              (fun c => match c with | Cell.str _ => false | _ => true) = true := by
            rcases hdisj with hd | hd
            · exact hd
            · rw [Bool.and_eq_true] at hd
              have hh := (List.all_eq_true.mp hd.1) (r.getD j Cell.missing)
                (hcolmem r hr j)
              rw [hcell] at hh
              simp at hh
          rw [List.all_eq_true]
          intro fr hfr
          obtain ⟨r2, hr2, rfl⟩ := List.mem_map.mp hfr
          rw [hfield r2 hr2 j hjc]
          have hnost := (List.all_eq_true.mp hfirst) (r2.getD j Cell.missing)
            (hcolmem r2 hr2 j)
          cases hcell2 : r2.getD j Cell.missing with
          | missing => simp [renderCell]
          | str s2 =>
            rw [hcell2] at hnost
            simp at hnost
          | num q2 =>
            have hok2 : cellOKB (Cell.num q2) = true := by
              have hmem2 := hmemD r2 hr2 j hjc
              rw [hcell2] at hmem2
              exact hcellok r2 hr2 _ hmem2
            have hden2 : q2.den = 1 := by simpa [cellOKB] using hok2
            simp only [renderCell, if_pos hden2]
            rw [Bool.or_eq_true]
            right
            exact intField_intChars q2.num
        rw [if_pos hnostr, parseIntF_intChars, Rat.coe_int_num_of_den_eq_one hden,
          ← hget, hcell]
      | str s =>
        have hok : cellOKB (Cell.str s) = true := by
          have hmem := hmemD r hr j hjc
          rw [hcell] at hmem
          exact hcellok r hr _ hmem
        simp only [cellOKB, Bool.and_eq_true] at hok
        have hsne : s.toList ≠ [] := by simpa [List.isEmpty_iff] using hok.1
        simp only [renderCell]
        have hemp : (s.toList.isEmpty) = false := by
          simpa [List.isEmpty_iff] using hsne
        rw [hemp]
        simp only [Bool.false_eq_true, if_false]
        have hsecond : (colCells df j).all
            (fun c => match c with | Cell.num _ => false | _ => true) = true ∧
            (colCells df j).any
            (fun c => match c with | Cell.str s2 => !intField s2.toList | _ => false)
              = true := by
          rcases hdisj with hd | hd
          · have hh := (List.all_eq_true.mp hd) (r.getD j Cell.missing) (hcolmem r hr j)
            rw [hcell] at hh
            simp at hh
          · rw [Bool.and_eq_true] at hd
            exact hd
        obtain ⟨hnonum, hany⟩ := hsecond
        rw [List.any_eq_true] at hany
        obtain ⟨cbad, hcbadmem, hcbad⟩ := hany
        have hbadform : ∃ s1, cbad = Cell.str s1 ∧ intField s1.toList = false := by
          cases cbad with
          | str s1 =>
            refine ⟨s1, rfl, ?_⟩
            simpa using hcbad
          | num q1 => simp at hcbad
          | missing => simp at hcbad
        obtain ⟨s1, rfl, hbad⟩ := hbadform
        simp only [colCells] at hcbadmem
        obtain ⟨r1, hr1, hcell1⟩ := List.mem_map.mp hcbadmem
        have hisfalse : (df.rows.map (fun r2 => r2.map renderCell)).all
            (fun r2 => (r2.getD j []).isEmpty || intField (r2.getD j [])) = false := by
          rw [List.all_eq_false]
          refine ⟨r1.map renderCell, List.mem_map_of_mem _ hr1, ?_⟩
          have hok1 : cellOKB (Cell.str s1) = true := by
            have hmem1 := hmemD r1 hr1 j hjc
            rw [hcell1] at hmem1
            exact hcellok r1 hr1 _ hmem1
          simp only [cellOKB, Bool.and_eq_true] at hok1
          have hs1ne : s1.toList.isEmpty = false := by
            simpa using hok1.1
          show ¬ (((r1.map renderCell).getD j []).isEmpty
            || intField ((r1.map renderCell).getD j [])) = true
          rw [hfield r1 hr1 j hjc, hcell1]
          simp only [renderCell]
          intro h0
          rw [Bool.or_eq_true] at h0
          rcases h0 with h0 | h0
          · rw [hs1ne] at h0
            simp at h0
          · rw [hbad] at h0
            simp at h0
        rw [hisfalse]
        simp only [Bool.false_eq_true, if_false]
        rw [string_mk_toList, ← hget, hcell]
  have hrowsback : (df.rows.map (fun r => r.map renderCell)).map
      (fun r => (List.range df.cols.length).map (fun j =>
        if (r.getD j []).isEmpty then Cell.missing
        else if (df.rows.map (fun r2 => r2.map renderCell)).all
            (fun r2 => (r2.getD j []).isEmpty || intField (r2.getD j [])) then
          Cell.num ((parseIntF (r.getD j []) : Int) : ℚ)
        else Cell.str (String.mk (r.getD j []))))
      = df.rows := by
    rw [List.map_map]
    have h0 : ∀ r ∈ df.rows, ((fun r => (List.range df.cols.length).map (fun j =>
        if (r.getD j []).isEmpty then Cell.missing
        else if (df.rows.map (fun r2 => r2.map renderCell)).all
            (fun r2 => (r2.getD j []).isEmpty || intField (r2.getD j [])) then
          Cell.num ((parseIntF (r.getD j []) : Int) : ℚ)
        else Cell.str (String.mk (r.getD j [])))) ∘ (fun r => r.map renderCell)) r
        = id r := fun r hr => hrowelem r hr
    rw [List.map_congr_left h0, List.map_id]
  rw [hcolsback, hrowsback]

/-- Witness for C9 at a concrete canonical frame. -/
theorem c9_export_reload_roundtrip_witness :
    read_csv_chars (to_csv w9df) = some w9df :=
  c9_export_reload_roundtrip w9df (of_decide_eq_true (by with_unfolding_all rfl))

end Solar
